import Mathlib

/-!
# Verification of the options-analytics engine

Shallow embedding of the core of the `planilla_opciones` backend
(`app/services/analytics.py`, `app/services/greeks.py`,
`app/services/pricing_engine.py`, `app/services/market_data.py`) and proofs of
the specification claims about it.

Conventions of the embedding:

* Python floats are modelled as exact rationals (`ℚ`); decimal literals of the
  source (`0.01`, `0.0001`, `0.6`, …) are mapped to the exact decimal rational.
* Python ints are modelled as `ℤ` (or `ℕ` where the source value is a count).
* Fallible operations return `Option`; a `none` models a raised exception or a
  Python `None`.
* The external numerical library (`py_vollib`) is modelled by a record of
  abstract functions: the implied-volatility root finder is fallible
  (`Option ℚ`, `none` = raised exception: non-convergence, price outside
  arbitrage bounds, domain error), while the analytic Greek formulas are total
  closed-form real functions, as in the library.
* `round(x, n)` of Python is modelled with Mathlib's `round` (half-up instead
  of the float half-even; no claim below depends on the tie behaviour).
-/

namespace Planilla

/- The Batteries arithmetic on `Rat` is `@[irreducible]`, which blocks
`decide` on concrete rational computations; restore default reducibility for
this development (kernel-checked proofs are unaffected). -/
attribute [local semireducible] Rat.add Rat.sub Rat.mul Rat.inv Rat.ofScientific

/-- Python `round(x, 4)`. -/
def round4 (x : ℚ) : ℚ := (round (x * 10000) : ℤ) / 10000

/-- Python `round(x, 2)`. -/
def round2 (x : ℚ) : ℚ := (round (x * 100) : ℤ) / 100

/-! ## analytics.py : data model -/

/-- Dataclass `GexStrike` (analytics.py). -/
structure GexStrike where
  strike : ℚ
  call_gex : ℚ
  put_gex : ℚ
  total_gex : ℚ
  call_oi : ℤ
  put_oi : ℤ
  call_gamma : ℚ
  put_gamma : ℚ
  vex : ℚ
  cex : ℚ
  moneyness : String
deriving DecidableEq, Repr

/-- Dataclass `GexProfile` (analytics.py). -/
structure GexProfile where
  spot_price : ℚ
  flip_point : Option ℚ
  total_call_gex : ℚ
  total_put_gex : ℚ
  net_gex : ℚ
  strikes : List GexStrike
  max_pain : Option ℚ
  total_vex : ℚ
  total_cex : ℚ
  gex_regime : String
  local_gex : ℚ
deriving DecidableEq, Repr

/-- Dataclass `FlowDataPoint` (analytics.py). -/
structure FlowDataPoint where
  date : String
  price : ℚ
  volume : ℤ
  buy_volume : ℤ
  sell_volume : ℤ
  net_flow : ℤ
  cvd : ℚ
deriving DecidableEq, Repr

/-- One OHLCV candle as consumed by `calculate_cvd_profile`.  The source reads
the fields out of a dict with defaults (`close`/`volume` default to `0`,
`bid`/`ask`/`last` to `None`, `date` falls back to a timestamp); absent keys
are modelled by those default values here. -/
structure Candle where
  date : String
  close : ℚ
  volume : ℤ
  bid : Option ℚ
  ask : Option ℚ
  last : Option ℚ
deriving DecidableEq, Repr

/-! ## analytics.py : CVD engine -/

/-- Tick rule of `calculate_cvd_profile`: close above the previous close is a
buy (`1`), below is a sell (`-1`), equality keeps the previous direction. -/
def tickDir (close prev_close : ℚ) (prev_direction : ℤ) : ℤ :=
  if close > prev_close then 1
  else if close < prev_close then -1
  else prev_direction

/-- Direction classification of one candle (body of the loop in
`calculate_cvd_profile`): Lee-Ready spread-location rule when bid/ask are
usable, tick rule otherwise. -/
def candleDir (c : Candle) (prev_close : ℚ) (prev_direction : ℤ) : ℤ :=
  match c.bid, c.ask with
  | some bid, some ask =>
    if bid > 0 ∧ ask > bid then
      let last_price := c.last.getD c.close
      let price_location := (last_price - bid) / (ask - bid)
      let price_location := max 0 (min 1 price_location)
      if price_location ≥ 6/10 then 1
      else if price_location ≤ 4/10 then -1
      else prev_direction
    else tickDir c.close prev_close prev_direction
  | _, _ => tickDir c.close prev_close prev_direction

/-- Loop of `calculate_cvd_profile`, threading the state
`(prev_close, prev_direction, cumulative_cvd)`. -/
def cvdAux : List Candle → ℚ → ℤ → ℚ → List FlowDataPoint
  | [], _, _, _ => []
  | c :: rest, prev_close, prev_direction, cumulative_cvd =>
    let direction := candleDir c prev_close prev_direction
    let buy_volume : ℤ := if direction = 1 then c.volume else 0
    let sell_volume : ℤ := if direction = 1 then 0 else c.volume
    let net_flow := buy_volume - sell_volume
    let cvd := cumulative_cvd + (net_flow : ℚ)
    { date := c.date, price := c.close, volume := c.volume,
      buy_volume := buy_volume, sell_volume := sell_volume,
      net_flow := net_flow, cvd := cvd }
      :: cvdAux rest c.close direction cvd

/-- Method `AnalyticsService.calculate_cvd_profile` (analytics.py).  Fewer than two
candles yield an empty series; the previous close is seeded with the first
candle's own close and the previous direction with buy. -/
def calculate_cvd_profile (historical_data : List Candle) : List FlowDataPoint :=
  if historical_data.length < 2 then []
  else
    match historical_data with
    | [] => []
    | c :: rest => cvdAux (c :: rest) c.close 1 0

/-! Claim-side definitions for C4: the per-sample direction assignment as the
claim words it, computed on its own (independently of the volume/cvd
bookkeeping of the source loop). -/

/-- Direction of one sample per the claim: spread-location rule when bid and
ask are present with `ask > bid > 0` (location clamped to `[0,1]`, `≥ 0.6` buy,
`≤ 0.4` sell, otherwise the previous direction), tick rule otherwise. -/
def claimDirection (c : Candle) (prevClose : ℚ) (prevDir : ℤ) : ℤ :=
  match c.bid, c.ask with
  | some bid, some ask =>
    if bid > 0 ∧ ask > bid then
      let location := max 0 (min 1 ((c.last.getD c.close - bid) / (ask - bid)))
      if location ≥ 6/10 then 1
      else if location ≤ 4/10 then -1
      else prevDir
    else tickDir c.close prevClose prevDir
  | _, _ => tickDir c.close prevClose prevDir

/-- Direction sequence per the claim, seeded with previous direction buy and
previous close equal to the first sample's own close. -/
def claimDirsAux : List Candle → ℚ → ℤ → List ℤ
  | [], _, _ => []
  | c :: rest, prevClose, prevDir =>
    let d := claimDirection c prevClose prevDir
    d :: claimDirsAux rest c.close d

/-- Directions of every sample of a sequence, per the claim's rules. -/
def claimDirections : List Candle → List ℤ
  | [] => []
  | c :: rest => claimDirsAux (c :: rest) c.close 1

lemma claimDirection_eq_candleDir (c : Candle) (pc : ℚ) (pd : ℤ) :
    claimDirection c pc pd = candleDir c pc pd := by
  unfold claimDirection candleDir
  rfl

lemma cvdAux_forall₂ (l : List Candle) (pc : ℚ) (pd : ℤ) (c0 : ℚ) :
    List.Forall₂
      (fun (fp : FlowDataPoint) (d : ℤ) =>
        fp.buy_volume = (if d = 1 then fp.volume else 0) ∧
        fp.sell_volume = (if d = 1 then 0 else fp.volume))
      (cvdAux l pc pd c0) (claimDirsAux l pc pd) := by
  induction l generalizing pc pd c0 with
  | nil => simp [cvdAux, claimDirsAux]
  | cons c rest ih =>
    simp only [cvdAux, claimDirsAux, claimDirection_eq_candleDir]
    exact List.Forall₂.cons ⟨rfl, rfl⟩ (ih _ _ _)

lemma cvdAux_mem (l : List Candle) (pc : ℚ) (pd : ℤ) (c0 : ℚ) :
    ∀ fp ∈ cvdAux l pc pd c0,
      fp.buy_volume + fp.sell_volume = fp.volume ∧
      (fp.buy_volume = 0 ∨ fp.sell_volume = 0) ∧
      fp.net_flow = fp.buy_volume - fp.sell_volume := by
  induction l generalizing pc pd c0 with
  | nil => simp [cvdAux]
  | cons c rest ih =>
    intro fp hfp
    simp only [cvdAux, List.mem_cons] at hfp
    rcases hfp with rfl | hfp
    · by_cases hd : candleDir c pc pd = 1 <;> simp [hd]
    · exact ih _ _ _ fp hfp

lemma cvdAux_head (l : List Candle) (pc : ℚ) (pd : ℤ) (c0 : ℚ) :
    ∀ fp, (cvdAux l pc pd c0).head? = some fp → fp.cvd = c0 + (fp.net_flow : ℚ) := by
  cases l with
  | nil => simp [cvdAux]
  | cons c rest =>
    intro fp hfp
    simp only [cvdAux, List.head?_cons, Option.some.injEq] at hfp
    subst hfp
    rfl

lemma cvdAux_chain (l : List Candle) (pc : ℚ) (pd : ℤ) (c0 : ℚ) :
    List.Chain' (fun a b => b.cvd = a.cvd + (b.net_flow : ℚ)) (cvdAux l pc pd c0) := by
  induction l generalizing pc pd c0 with
  | nil => simp [cvdAux]
  | cons c rest ih =>
    rw [cvdAux, List.chain'_cons']
    refine ⟨?_, ih _ _ _⟩
    intro b hb
    have := cvdAux_head rest c.close (candleDir c pc pd) _ b hb
    simpa using this

/-- The claim's concrete 3-sample sequence: closes `[100, 105, 103]`,
volumes `[1000, 2000, 1500]`, no bid/ask. -/
def cvdExample : List Candle :=
  [ { date := "t0", close := 100, volume := 1000, bid := none, ask := none, last := none },
    { date := "t1", close := 105, volume := 2000, bid := none, ask := none, last := none },
    { date := "t2", close := 103, volume := 1500, bid := none, ask := none, last := none } ]

/-- An input containing a zero-volume sample (both classified volumes are 0
there). -/
def cvdZeroVolInput : List Candle :=
  [ { date := "t0", close := 100, volume := 0, bid := none, ask := none, last := none },
    { date := "t1", close := 101, volume := 5, bid := none, ask := none, last := none } ]

/-- C4: every sample of a CVD series is classified by the spread-location rule
when bid/ask are usable (clamped location `≥ 0.6` buy, `≤ 0.4` sell, otherwise
the previous direction) and by the tick rule otherwise, the first sample being
seeded with previous direction buy and previous close equal to its own close;
the sample's whole volume goes to the buy side exactly when the direction is
buy.  The claim's 3-sample example produces directions `[buy, buy, sell]` and
cvd values `[1000, 3000, 1500]`. -/
theorem c4_cvd_direction_rules :
    (∀ hd : List Candle, 2 ≤ hd.length →
      List.Forall₂
        (fun (fp : FlowDataPoint) (d : ℤ) =>
          fp.buy_volume = (if d = 1 then fp.volume else 0) ∧
          fp.sell_volume = (if d = 1 then 0 else fp.volume))
        (calculate_cvd_profile hd) (claimDirections hd)) ∧
    claimDirections cvdExample = [1, 1, -1] ∧
    (calculate_cvd_profile cvdExample).map
        (fun fp => (fp.buy_volume, fp.sell_volume, fp.cvd)) =
      [(1000, 0, 1000), (2000, 0, 3000), (0, 1500, 1500)] := by
  refine ⟨?_, by decide, by decide⟩
  intro hd hlen
  match hd, hlen with
  | c :: rest, _ =>
    rw [calculate_cvd_profile, if_neg (by omega), claimDirections]
    exact cvdAux_forall₂ _ _ _ _

/-- C4 witness: the universal part of `c4_cvd_direction_rules` applied to the
concrete 3-sample example. -/
theorem c4_cvd_direction_rules_witness :
    List.Forall₂
      (fun (fp : FlowDataPoint) (d : ℤ) =>
        fp.buy_volume = (if d = 1 then fp.volume else 0) ∧
        fp.sell_volume = (if d = 1 then 0 else fp.volume))
      (calculate_cvd_profile cvdExample) (claimDirections cvdExample) :=
  c4_cvd_direction_rules.1 cvdExample (by decide)

/-- C6 counterexample: on an input whose first sample has volume 0 the first
flow point has `buy_volume = 0` and `sell_volume = 0`, so it is false that
exactly one of them is nonzero at every point. -/
theorem c6_counterexample :
    ¬ (∀ fp ∈ calculate_cvd_profile cvdZeroVolInput,
        (fp.buy_volume ≠ 0 ∧ fp.sell_volume = 0) ∨
        (fp.buy_volume = 0 ∧ fp.sell_volume ≠ 0)) := by
  decide

/-- C6 (amended): every flow point satisfies
`buy_volume + sell_volume = volume`, at most one of the two classified volumes
is nonzero — exactly one whenever the sample volume is nonzero — and the cvd
field is the running total of `net_flow` (`cvd[0] = net_flow[0]`,
`cvd[i] = cvd[i-1] + net_flow[i]`). -/
theorem c6_flowpoint_invariants_amended (hd : List Candle) :
    (∀ fp ∈ calculate_cvd_profile hd,
      fp.buy_volume + fp.sell_volume = fp.volume ∧
      (fp.buy_volume = 0 ∨ fp.sell_volume = 0) ∧
      (fp.volume ≠ 0 →
        (fp.buy_volume ≠ 0 ∧ fp.sell_volume = 0) ∨
        (fp.buy_volume = 0 ∧ fp.sell_volume ≠ 0))) ∧
    (∀ fp, (calculate_cvd_profile hd).head? = some fp →
      fp.cvd = (fp.net_flow : ℚ)) ∧
    List.Chain' (fun a b => b.cvd = a.cvd + (b.net_flow : ℚ))
      (calculate_cvd_profile hd) := by
  unfold calculate_cvd_profile
  split
  · simp
  · match hd with
    | [] => simp
    | c :: rest =>
      refine ⟨?_, ?_, cvdAux_chain _ _ _ _⟩
      · intro fp hfp
        obtain ⟨hsum, hzero, hnet⟩ := cvdAux_mem _ _ _ _ fp hfp
        refine ⟨hsum, hzero, ?_⟩
        intro hvol
        rcases hzero with hb | hs
        · right
          refine ⟨hb, ?_⟩
          intro hs
          exact hvol (by omega)
        · left
          refine ⟨?_, hs⟩
          intro hb
          exact hvol (by omega)
      · intro fp hfp
        have := cvdAux_head _ _ _ _ fp hfp
        simpa using this

/-- C6 witness: the invariants of `c6_flowpoint_invariants_amended`
instantiated at the first flow point of the concrete 3-sample example. -/
theorem c6_flowpoint_invariants_amended_witness :
    ({ date := "t0", price := 100, volume := 1000, buy_volume := 1000,
       sell_volume := 0, net_flow := 1000, cvd := 1000 } : FlowDataPoint).buy_volume +
      ({ date := "t0", price := 100, volume := 1000, buy_volume := 1000,
         sell_volume := 0, net_flow := 1000, cvd := 1000 } : FlowDataPoint).sell_volume =
      ({ date := "t0", price := 100, volume := 1000, buy_volume := 1000,
         sell_volume := 0, net_flow := 1000, cvd := 1000 } : FlowDataPoint).volume ∧
    ({ date := "t0", price := 100, volume := 1000, buy_volume := 1000,
       sell_volume := 0, net_flow := 1000, cvd := 1000 } : FlowDataPoint).cvd =
      (({ date := "t0", price := 100, volume := 1000, buy_volume := 1000,
          sell_volume := 0, net_flow := 1000, cvd := 1000 } : FlowDataPoint).net_flow : ℚ) :=
  ⟨((c6_flowpoint_invariants_amended cvdExample).1 _ (by decide)).1,
    (c6_flowpoint_invariants_amended cvdExample).2.1 _ (by decide)⟩

/-! ## analytics.py : CVD divergence -/

/-- Result of `calculate_cvd_divergence`.  The source returns one of two dict
shapes: the degraded `{'divergence': None, 'strength': 0}` when fewer than
`lookback` samples are available, or the full analysis dict. -/
inductive DivergenceResult where
  | insufficient : DivergenceResult
  | verdict (divergence : Option String) (price_trend cvd_trend : String)
      (price_change_pct cvd_change : ℚ) (lookback_periods : ℕ) : DivergenceResult
deriving DecidableEq, Repr

/-- Method `AnalyticsService.calculate_cvd_divergence` (analytics.py).  `lookback` is
a count (the Python default is 10).  `recent = flow_data[-lookback:]` is the
trailing window (the whole list when `lookback = 0`); `none` models the
`IndexError` raised when that window is empty. -/
def calculate_cvd_divergence (flow_data : List FlowDataPoint) (lookback : ℕ) :
    Option DivergenceResult :=
  if flow_data.length < lookback then some .insufficient
  else
    let recent := if lookback = 0 then flow_data
                  else flow_data.drop (flow_data.length - lookback)
    match recent.head?, recent.getLast? with
    | some first, some last =>
      let price_trend := if last.price > first.price then "up" else "down"
      let cvd_trend := if last.cvd > first.cvd then "up" else "down"
      let divergence : Option String :=
        if price_trend = "down" ∧ cvd_trend = "up" then some "bullish"
        else if price_trend = "up" ∧ cvd_trend = "down" then some "bearish"
        else none
      let price_change_pct :=
        if first.price ≠ 0 then (last.price - first.price) / first.price * 100
        else 0
      some (.verdict divergence price_trend cvd_trend (round2 price_change_pct)
        (last.cvd - first.cvd) lookback)
    | _, _ => none

/-- C7: with fewer than `lookback` samples the divergence detector returns the
insufficient-data result; otherwise, writing `fp`/`lp` for the first and last
points of the trailing window, it reports bullish exactly when the price trend
is down (last not greater than first) and the CVD trend is up, bearish exactly
when the price trend is up and the CVD trend is down, and no divergence
otherwise, always reporting the percentage price change and the CVD change of
the window. -/
theorem c7_divergence_detection (flow : List FlowDataPoint) (lookback : ℕ) :
    (flow.length < lookback →
      calculate_cvd_divergence flow lookback = some .insufficient) ∧
    (∀ fp lp, 1 ≤ lookback → lookback ≤ flow.length →
      (flow.drop (flow.length - lookback)).head? = some fp →
      (flow.drop (flow.length - lookback)).getLast? = some lp →
      calculate_cvd_divergence flow lookback =
        some (.verdict
          (if ¬ lp.price > fp.price ∧ lp.cvd > fp.cvd then some "bullish"
           else if lp.price > fp.price ∧ ¬ lp.cvd > fp.cvd then some "bearish"
           else none)
          (if lp.price > fp.price then "up" else "down")
          (if lp.cvd > fp.cvd then "up" else "down")
          (round2 (if fp.price ≠ 0 then (lp.price - fp.price) / fp.price * 100
                   else 0))
          (lp.cvd - fp.cvd) lookback)) := by
  constructor
  · intro h
    rw [calculate_cvd_divergence, if_pos h]
  · intro fp lp h1 h2 hf hl
    rw [calculate_cvd_divergence, if_neg (by omega)]
    have hlb : ¬ lookback = 0 := by omega
    simp only [hlb, if_false, hf, hl]
    by_cases hp : lp.price > fp.price <;> by_cases hc : lp.cvd > fp.cvd <;>
      simp [hp, hc]

/-- C7 witness: the detector applied to a 2-point window with falling price
and rising CVD reports a bullish divergence. -/
theorem c7_divergence_detection_witness :
    calculate_cvd_divergence
      [ { date := "a", price := 100, volume := 10, buy_volume := 10,
          sell_volume := 0, net_flow := 10, cvd := 10 },
        { date := "b", price := 90, volume := 10, buy_volume := 10,
          sell_volume := 0, net_flow := 10, cvd := 20 } ] 2 =
      some (.verdict (some "bullish") "down" "up" (-10) 10 2) := by
  have h := (c7_divergence_detection
    [ { date := "a", price := 100, volume := 10, buy_volume := 10,
        sell_volume := 0, net_flow := 10, cvd := 10 },
      { date := "b", price := 90, volume := 10, buy_volume := 10,
        sell_volume := 0, net_flow := 10, cvd := 20 } ] 2).2
    { date := "a", price := 100, volume := 10, buy_volume := 10,
      sell_volume := 0, net_flow := 10, cvd := 10 }
    { date := "b", price := 90, volume := 10, buy_volume := 10,
      sell_volume := 0, net_flow := 10, cvd := 20 }
    (by decide) (by decide) (by decide) (by decide)
  rw [h]
  decide

/-! ## greeks.py / pricing_engine.py : pricing kernel

The external `py_vollib` library is abstracted by `VollibModel`: the
implied-volatility root finder `bs_iv` is fallible (`none` models a raised
exception — non-convergence, price outside arbitrage bounds, domain error),
while the analytic Greek formulas of
`py_vollib.black_scholes.greeks.analytical` are total closed-form functions of
`(flag, S, K, t, r, sigma)` and are modelled as total functions. -/

structure VollibModel where
  bs_iv : ℚ → ℚ → ℚ → ℚ → ℚ → Char → Option ℚ
  bs_delta : Char → ℚ → ℚ → ℚ → ℚ → ℚ → ℚ
  bs_gamma : Char → ℚ → ℚ → ℚ → ℚ → ℚ → ℚ
  bs_theta : Char → ℚ → ℚ → ℚ → ℚ → ℚ → ℚ
  bs_vega : Char → ℚ → ℚ → ℚ → ℚ → ℚ → ℚ

/-- The result dict of `calculate_row_greeks` / `calculate_iv_and_greeks`. -/
structure GreeksResult where
  iv : Option ℚ
  delta : Option ℚ
  gamma : Option ℚ
  theta : Option ℚ
  vega : Option ℚ
  error : Option String
deriving DecidableEq, Repr

/-- The all-absent result with an error marker. -/
def emptyResult (e : Option String) : GreeksResult :=
  { iv := none, delta := none, gamma := none, theta := none, vega := none,
    error := e }

/-- ASCII upper-casing of one character (Python `str.upper` restricted to the
ASCII inputs this code base feeds it). -/
def upChar (c : Char) : Char :=
  if 'a' ≤ c ∧ c ≤ 'z' then Char.ofNat (c.toNat - 32) else c

/-- ASCII `str.upper`. -/
def upStr (s : String) : String := String.mk (s.data.map upChar)

/-- ASCII lower-casing of one character. -/
def lowChar (c : Char) : Char :=
  if 'A' ≤ c ∧ c ≤ 'Z' then Char.ofNat (c.toNat + 32) else c

/-- ASCII `str.lower`. -/
def lowStr (s : String) : String := String.mk (s.data.map lowChar)

/-- Option-type normalization of greeks.py (`'C'`/`'CALL'` → call,
`'V'`/`'P'`/`'PUT'`/`'VENTA'` → put, anything else invalid). -/
def flagOf (option_type : String) : Option Char :=
  if upStr option_type ∈ ["C", "CALL"] then some 'c'
  else if upStr option_type ∈ ["V", "P", "PUT", "VENTA"] then some 'p'
  else none

/-- Function `calculate_row_greeks` (greeks.py): validation, option-type
normalization, the expired special case at `T = 0`, then the root-finder and
the four analytic Greeks rounded to 4 decimals. -/
def calculate_row_greeks (lib : VollibModel) (S K T r price : ℚ)
    (option_type : String) : GreeksResult :=
  if S ≤ 0 ∨ K ≤ 0 then emptyResult (some "Spot and strike prices must be positive")
  else if price ≤ 0 then emptyResult (some "Market price must be positive")
  else if T < 0 then emptyResult (some "Time to expiry cannot be negative")
  else
    match flagOf option_type with
    | none => emptyResult (some "Invalid option type")
    | some flag =>
      if T ≤ 0 then
        { iv := some 0,
          delta := some (if flag = 'c' then (if S > K then 1 else 0)
                         else (if K > S then -1 else 0)),
          gamma := some 0, theta := some 0, vega := some 0,
          error := some "Option has expired" }
      else
        match lib.bs_iv price S K T r flag with
        | none => emptyResult (some "Greeks calculation error")
        | some iv_value =>
          { iv := some (round4 iv_value),
            delta := some (round4 (lib.bs_delta flag S K T r iv_value)),
            gamma := some (round4 (lib.bs_gamma flag S K T r iv_value)),
            theta := some (round4 (lib.bs_theta flag S K T r iv_value)),
            vega := some (round4 (lib.bs_vega flag S K T r iv_value)),
            error := none }

/-- Flag normalization of pricing_engine.py
(`'c' if option_type.lower().startswith('c') else 'p'`). -/
def engineFlag (option_type : String) : Char :=
  if (lowStr option_type).data.take 1 = ['c'] then 'c' else 'p'

/-- Method `PricingEngine.calculate_iv_and_greeks` (pricing_engine.py): validation,
days-to-years conversion, the expired special case at `t ≤ 0`, then the
root-finder and the four analytic Greeks rounded to 4 decimals. -/
def calculate_iv_and_greeks (lib : VollibModel) (spot_price strike : ℚ)
    (days_to_expiry : ℤ) (option_type : String) (market_price r : ℚ) :
    GreeksResult :=
  if days_to_expiry < 0 then emptyResult (some "Days to expiry cannot be negative")
  else if spot_price ≤ 0 ∨ strike ≤ 0 ∨ market_price ≤ 0 then
    emptyResult (some "Prices must be positive")
  else if option_type ∉ ["call", "put", "c", "p"] then
    emptyResult (some "Invalid option type")
  else
    -- the source binds `flag = engineFlag option_type` and
    -- `t = days_to_expiry / 365.0` as locals; they are inlined here
    if (days_to_expiry : ℚ) / 365 ≤ 0 then
      { iv := some 0,
        delta := some (if engineFlag option_type = 'c' ∧ spot_price > strike
                       then 1 else 0),
        gamma := some 0, theta := some 0, vega := some 0,
        error := some "Option has expired" }
    else
      match lib.bs_iv market_price spot_price strike ((days_to_expiry : ℚ) / 365)
          r (engineFlag option_type) with
      | none => emptyResult (some "Calculation error")
      | some iv_value =>
        { iv := some (round4 iv_value),
          delta := some (round4 (lib.bs_delta (engineFlag option_type) spot_price
            strike ((days_to_expiry : ℚ) / 365) r iv_value)),
          gamma := some (round4 (lib.bs_gamma (engineFlag option_type) spot_price
            strike ((days_to_expiry : ℚ) / 365) r iv_value)),
          theta := some (round4 (lib.bs_theta (engineFlag option_type) spot_price
            strike ((days_to_expiry : ℚ) / 365) r iv_value)),
          vega := some (round4 (lib.bs_vega (engineFlag option_type) spot_price
            strike ((days_to_expiry : ℚ) / 365) r iv_value)),
          error := none }

/-- A concrete library model whose root finder always fails. -/
def libNone : VollibModel :=
  { bs_iv := fun _ _ _ _ _ _ => none,
    bs_delta := fun _ _ _ _ _ _ => 0,
    bs_gamma := fun _ _ _ _ _ _ => 0,
    bs_theta := fun _ _ _ _ _ _ => 0,
    bs_vega := fun _ _ _ _ _ _ => 0 }

lemma row_greeks_invalid (lib : VollibModel) (S K T r price : ℚ)
    (ot : String) (hS : 0 < S) (hK : 0 < K) (hprice : 0 < price) (hT : 0 < T)
    (hf : flagOf ot = none) :
    calculate_row_greeks lib S K T r price ot =
      emptyResult (some "Invalid option type") := by
  rw [calculate_row_greeks, if_neg (by push_neg; exact ⟨hS, hK⟩),
    if_neg (not_le.mpr hprice), if_neg (not_lt.mpr hT.le)]
  simp only [hf]

lemma row_greeks_fail (lib : VollibModel) (S K T r price : ℚ)
    (ot : String) (f : Char) (hS : 0 < S) (hK : 0 < K) (hprice : 0 < price)
    (hT : 0 < T) (hf : flagOf ot = some f)
    (hiv : lib.bs_iv price S K T r f = none) :
    calculate_row_greeks lib S K T r price ot =
      emptyResult (some "Greeks calculation error") := by
  rw [calculate_row_greeks, if_neg (by push_neg; exact ⟨hS, hK⟩),
    if_neg (not_le.mpr hprice), if_neg (not_lt.mpr hT.le)]
  simp only [hf, if_neg (not_le.mpr hT), hiv]

lemma row_greeks_success (lib : VollibModel) (S K T r price : ℚ)
    (ot : String) (f : Char) (v : ℚ) (hS : 0 < S) (hK : 0 < K)
    (hprice : 0 < price) (hT : 0 < T) (hf : flagOf ot = some f)
    (hiv : lib.bs_iv price S K T r f = some v) :
    calculate_row_greeks lib S K T r price ot =
      { iv := some (round4 v),
        delta := some (round4 (lib.bs_delta f S K T r v)),
        gamma := some (round4 (lib.bs_gamma f S K T r v)),
        theta := some (round4 (lib.bs_theta f S K T r v)),
        vega := some (round4 (lib.bs_vega f S K T r v)),
        error := none } := by
  rw [calculate_row_greeks, if_neg (by push_neg; exact ⟨hS, hK⟩),
    if_neg (not_le.mpr hprice), if_neg (not_lt.mpr hT.le)]
  simp only [hf, if_neg (not_le.mpr hT), hiv]

lemma engine_greeks_invalid (lib : VollibModel) (S K : ℚ) (days : ℤ)
    (ot : String) (price r : ℚ) (hS : 0 < S) (hK : 0 < K) (hprice : 0 < price)
    (hdays : 0 ≤ days) (hmem : ot ∉ ["call", "put", "c", "p"]) :
    calculate_iv_and_greeks lib S K days ot price r =
      emptyResult (some "Invalid option type") := by
  rw [calculate_iv_and_greeks, if_neg (not_lt.mpr hdays),
    if_neg (by push_neg; exact ⟨hS, hK, hprice⟩), if_pos hmem]

lemma engine_greeks_fail (lib : VollibModel) (S K : ℚ) (days : ℤ)
    (ot : String) (price r : ℚ) (hS : 0 < S) (hK : 0 < K) (hprice : 0 < price)
    (hdays : 0 < days) (hmem : ot ∈ ["call", "put", "c", "p"])
    (hiv : lib.bs_iv price S K ((days : ℚ) / 365) r (engineFlag ot) = none) :
    calculate_iv_and_greeks lib S K days ot price r =
      emptyResult (some "Calculation error") := by
  have ht : ¬ ((days : ℚ) / 365 ≤ 0) := by
    push_neg
    positivity
  rw [calculate_iv_and_greeks, if_neg (not_lt.mpr hdays.le),
    if_neg (by push_neg; exact ⟨hS, hK, hprice⟩), if_neg (not_not_intro hmem),
    if_neg ht]
  simp only [hiv]

lemma engine_greeks_success (lib : VollibModel) (S K : ℚ) (days : ℤ)
    (ot : String) (price r v : ℚ) (hS : 0 < S) (hK : 0 < K)
    (hprice : 0 < price) (hdays : 0 < days)
    (hmem : ot ∈ ["call", "put", "c", "p"])
    (hiv : lib.bs_iv price S K ((days : ℚ) / 365) r (engineFlag ot) = some v) :
    calculate_iv_and_greeks lib S K days ot price r =
      { iv := some (round4 v),
        delta := some (round4 (lib.bs_delta (engineFlag ot) S K
          ((days : ℚ) / 365) r v)),
        gamma := some (round4 (lib.bs_gamma (engineFlag ot) S K
          ((days : ℚ) / 365) r v)),
        theta := some (round4 (lib.bs_theta (engineFlag ot) S K
          ((days : ℚ) / 365) r v)),
        vega := some (round4 (lib.bs_vega (engineFlag ot) S K
          ((days : ℚ) / 365) r v)),
        error := none } := by
  have ht : ¬ ((days : ℚ) / 365 ≤ 0) := by
    push_neg
    positivity
  rw [calculate_iv_and_greeks, if_neg (not_lt.mpr hdays.le),
    if_neg (by push_neg; exact ⟨hS, hK, hprice⟩), if_neg (not_not_intro hmem),
    if_neg ht]
  simp only [hiv]

/-- C2: for positive spot, strike and market price and a positive time to
expiry, both pricing-kernel entry points never return a partially populated
result: whenever the error marker is set, implied volatility and all four
Greeks are absent; and whenever the root finder fails, the error marker is
set. -/
theorem c2_numerical_failure_all_absent (lib : VollibModel)
    (S K T r price : ℚ) (days_to_expiry : ℤ) (ot : String)
    (hS : 0 < S) (hK : 0 < K) (hprice : 0 < price) :
    (0 < T →
      ((calculate_row_greeks lib S K T r price ot).error ≠ none →
        (calculate_row_greeks lib S K T r price ot).iv = none ∧
        (calculate_row_greeks lib S K T r price ot).delta = none ∧
        (calculate_row_greeks lib S K T r price ot).gamma = none ∧
        (calculate_row_greeks lib S K T r price ot).theta = none ∧
        (calculate_row_greeks lib S K T r price ot).vega = none) ∧
      (∀ f, flagOf ot = some f → lib.bs_iv price S K T r f = none →
        (calculate_row_greeks lib S K T r price ot).error ≠ none)) ∧
    (0 < days_to_expiry →
      ((calculate_iv_and_greeks lib S K days_to_expiry ot price r).error ≠ none →
        (calculate_iv_and_greeks lib S K days_to_expiry ot price r).iv = none ∧
        (calculate_iv_and_greeks lib S K days_to_expiry ot price r).delta = none ∧
        (calculate_iv_and_greeks lib S K days_to_expiry ot price r).gamma = none ∧
        (calculate_iv_and_greeks lib S K days_to_expiry ot price r).theta = none ∧
        (calculate_iv_and_greeks lib S K days_to_expiry ot price r).vega = none) ∧
      (ot ∈ ["call", "put", "c", "p"] →
        lib.bs_iv price S K ((days_to_expiry : ℚ) / 365) r (engineFlag ot) = none →
        (calculate_iv_and_greeks lib S K days_to_expiry ot price r).error ≠ none)) := by
  constructor
  · intro hT
    cases hf : flagOf ot with
    | none =>
      rw [row_greeks_invalid lib S K T r price ot hS hK hprice hT hf]
      exact ⟨fun _ => ⟨rfl, rfl, rfl, rfl, rfl⟩, fun f hf' => nomatch hf'⟩
    | some f =>
      cases hiv : lib.bs_iv price S K T r f with
      | none =>
        rw [row_greeks_fail lib S K T r price ot f hS hK hprice hT hf hiv]
        refine ⟨fun _ => ⟨rfl, rfl, rfl, rfl, rfl⟩, ?_⟩
        intro f' hf' _
        simp [emptyResult]
      | some v =>
        rw [row_greeks_success lib S K T r price ot f v hS hK hprice hT hf hiv]
        refine ⟨fun herr => absurd rfl herr, ?_⟩
        intro f' hf' hiv'
        injection hf' with hff
        subst hff
        rw [hiv] at hiv'
        cases hiv'
  · intro hdays
    by_cases hmem : ot ∈ ["call", "put", "c", "p"]
    · cases hiv : lib.bs_iv price S K ((days_to_expiry : ℚ) / 365) r (engineFlag ot) with
      | none =>
        rw [engine_greeks_fail lib S K days_to_expiry ot price r hS hK hprice
          hdays hmem hiv]
        exact ⟨fun _ => ⟨rfl, rfl, rfl, rfl, rfl⟩, fun _ _ => by simp [emptyResult]⟩
      | some v =>
        rw [engine_greeks_success lib S K days_to_expiry ot price r v hS hK
          hprice hdays hmem hiv]
        exact ⟨fun herr => absurd rfl herr, fun _ hiv' => nomatch hiv'⟩
    · rw [engine_greeks_invalid lib S K days_to_expiry ot price r hS hK hprice
        hdays.le hmem]
      exact ⟨fun _ => ⟨rfl, rfl, rfl, rfl, rfl⟩, fun hmem' => absurd hmem' hmem⟩

/-- C2 witness: with an always-failing root finder, both entry points at
concrete positive inputs mark the error and leave all Greeks absent. -/
theorem c2_numerical_failure_all_absent_witness :
    (calculate_row_greeks libNone 100 110 1 0 5 "c").iv = none ∧
    (calculate_row_greeks libNone 100 110 1 0 5 "c").delta = none ∧
    (calculate_row_greeks libNone 100 110 1 0 5 "c").error ≠ none ∧
    (calculate_iv_and_greeks libNone 100 110 30 "c" 5 0).iv = none ∧
    (calculate_iv_and_greeks libNone 100 110 30 "c" 5 0).error ≠ none := by
  have h := c2_numerical_failure_all_absent libNone 100 110 1 0 5 30 "c"
    (by norm_num) (by norm_num) (by norm_num)
  have hrow := h.1 (by norm_num)
  have heng := h.2 (by norm_num)
  have herr := hrow.2 'c' (by decide) rfl
  have heerr := heng.2 (by decide) rfl
  exact ⟨(hrow.1 herr).1, (hrow.1 herr).2.1, herr, (heng.1 heerr).1, heerr⟩

/-- C3 counterexample: at `T = 0` with positive inputs,
`calculate_row_greeks` (greeks.py) returns delta `-1.0` for an in-the-money
put (`K > S`), not `0.0` as the claim requires for every non-ITM-call case. -/
theorem c3_counterexample :
    (calculate_row_greeks libNone 100 150 0 (35/100) 50 "P").delta = some (-1) ∧
    ((-1 : ℚ) ≠ 0) := by
  decide

/-- C3 (amended): at zero time to expiry with positive spot, strike and price
the root finder is skipped, `gamma = theta = vega = iv = 0.0` exactly and the
error marker reads "Option has expired"; the engine
(`calculate_iv_and_greeks`) returns delta 1.0 for an ITM call and 0.0 in
every other case, while the row kernel (`calculate_row_greeks`) returns
delta 1.0 for an ITM call, `-1.0` for a put with strike above spot, and 0.0
otherwise. -/
theorem c3_expired_greeks_amended (lib : VollibModel) (S K r price : ℚ)
    (ot : String) (f : Char) (hS : 0 < S) (hK : 0 < K) (hprice : 0 < price) :
    (flagOf ot = some f →
      calculate_row_greeks lib S K 0 r price ot =
        { iv := some 0,
          delta := some (if f = 'c' then (if S > K then 1 else 0)
                         else (if K > S then -1 else 0)),
          gamma := some 0, theta := some 0, vega := some 0,
          error := some "Option has expired" }) ∧
    (ot ∈ ["call", "put", "c", "p"] →
      calculate_iv_and_greeks lib S K 0 ot price r =
        { iv := some 0,
          delta := some (if engineFlag ot = 'c' ∧ S > K then 1 else 0),
          gamma := some 0, theta := some 0, vega := some 0,
          error := some "Option has expired" }) := by
  constructor
  · intro hf
    rw [calculate_row_greeks, if_neg (by push_neg; exact ⟨hS, hK⟩),
      if_neg (not_le.mpr hprice), if_neg (lt_irrefl 0)]
    simp only [hf, if_pos (le_refl (0 : ℚ))]
  · intro hmem
    rw [calculate_iv_and_greeks, if_neg (lt_irrefl (0 : ℤ)),
      if_neg (by push_neg; exact ⟨hS, hK, hprice⟩),
      if_neg (not_not_intro hmem), if_pos (by norm_num)]

/-- C3 amended witness: both kernels at a concrete expired ITM call. -/
theorem c3_expired_greeks_amended_witness :
    calculate_row_greeks libNone 100 90 0 0 5 "c" =
      { iv := some 0, delta := some 1, gamma := some 0, theta := some 0,
        vega := some 0, error := some "Option has expired" } ∧
    calculate_iv_and_greeks libNone 100 90 0 "c" 5 0 =
      { iv := some 0, delta := some 1, gamma := some 0, theta := some 0,
        vega := some 0, error := some "Option has expired" } := by
  have h := c3_expired_greeks_amended libNone 100 90 0 5 "c" 'c'
    (by norm_num) (by norm_num) (by norm_num)
  constructor
  · rw [h.1 (by decide)]
    decide
  · rw [h.2 (by decide)]
    decide

/-! ## analytics.py : gamma flip point -/

/-- Loop of `_find_flip_point` collecting the zero crossings: walks the
strikes accumulating the running sum of `total_gex`, and at each sign change
(`prev_cumsum * cumsum < 0`, only past the first strike, i.e. when a previous
strike exists) records the linear interpolation — or the current strike
itself when `|cumsum - prev_cumsum|` is not above `0.0001`. -/
def crossingsAux : List GexStrike → ℚ → Option ℚ → List ℚ
  | [], _, _ => []
  | gs :: rest, cumsum, prev_strike? =>
    let prev_cumsum := cumsum
    let cumsum' := cumsum + gs.total_gex
    (match prev_strike? with
     | none => []
     | some prev_strike =>
       if prev_cumsum * cumsum' < 0 then
         [if |cumsum' - prev_cumsum| > 1/10000 then
            prev_strike + (|prev_cumsum| / |cumsum' - prev_cumsum|) *
              (gs.strike - prev_strike)
          else gs.strike]
       else [])
      ++ crossingsAux rest cumsum' (some gs.strike)

/-- Loop of Python `min(xs, key=lambda x: abs(x - spot))`: keeps the current
minimizer, replacing it only on a strictly smaller distance (so the first
minimizer wins). -/
def closestAux (spot : ℚ) : List ℚ → Option ℚ → Option ℚ
  | [], best => best
  | x :: rest, best =>
    closestAux spot rest
      (match best with
       | none => some x
       | some b => if |x - spot| < |b - spot| then some x else some b)

/-- Python `min(xs, key=lambda x: abs(x - spot))`: the first element of the
list minimizing the distance to spot (`none` on an empty list). -/
def closestTo (spot : ℚ) (l : List ℚ) : Option ℚ :=
  closestAux spot l none

/-- Fallback loop of `_find_flip_point`: tracks the strike with the smallest
absolute running cumulative GEX (`none` state models the initial
`min_abs_cum = inf`, under which the first comparison always succeeds). -/
def fallbackAux : List GexStrike → ℚ → Option (ℚ × ℚ) → Option ℚ
  | [], _, best => best.map Prod.snd
  | gs :: rest, cumsum, best =>
    let c := cumsum + gs.total_gex
    let best' :=
      match best with
      | none => some (|c|, gs.strike)
      | some (m, s) => if |c| < m then some (|c|, gs.strike) else some (m, s)
    fallbackAux rest c best'

/-- Method `AnalyticsService._find_flip_point` (analytics.py). -/
def _find_flip_point (gex_strikes : List GexStrike) (spot_price : ℚ) : Option ℚ :=
  if gex_strikes = [] then none
  else
    match closestTo spot_price (crossingsAux gex_strikes 0 none) with
    | some flip => some flip
    | none => fallbackAux gex_strikes 0 none

/-! Claim-side definitions for C1, phrased from the claim's words: the list of
`(strike, running cumulative sum)` pairs, the interpolated crossing of each
sign-flipping consecutive pair, the crossing closest to spot, and the
smallest-|cumsum| fallback. -/

/-- Pairs `(strike, running cumulative total_gex)` in ascending walk order. -/
def cumPairs : List GexStrike → ℚ → List (ℚ × ℚ)
  | [], _ => []
  | gs :: rest, c => (gs.strike, c + gs.total_gex) :: cumPairs rest (c + gs.total_gex)

/-- The claim's interpolation formula
`prev_strike + (|prev_cumsum| / |cumsum - prev_cumsum|) * (strike - prev_strike)`. -/
def interpFlip (s1 c1 s2 c2 : ℚ) : ℚ := s1 + (|c1| / |c2 - c1|) * (s2 - s1)

/-- Crossings of consecutive cumulative pairs whose signs flip; the amendment
forced by the source: the interpolation applies only when
`|cumsum - prev_cumsum| > 0.0001`, otherwise the right-hand strike itself is
recorded. -/
def claimCrossings : List (ℚ × ℚ) → List ℚ
  | (s1, c1) :: (s2, c2) :: rest =>
    (if c1 * c2 < 0 then
       [if |c2 - c1| > 1/10000 then interpFlip s1 c1 s2 c2 else s2]
     else [])
      ++ claimCrossings ((s2, c2) :: rest)
  | _ => []

/-- Running `min m (key x)` over all `x` of the list. -/
def minFromK (key : α → ℚ) : List α → ℚ → ℚ
  | [], m => m
  | x :: rest, m => minFromK key rest (min m (key x))

/-- The first element of a list attaining the minimal key (`none` on an empty
list). -/
def firstMinBy (key : α → ℚ) (l : List α) : Option α :=
  match l with
  | [] => none
  | x :: rest => (x :: rest).find? (fun y => key y = minFromK key rest (key x))

/-- C1 claim side: the crossing numerically closest to spot if any crossing
exists, else the strike whose running cumulative sum has the smallest
absolute value. -/
def flipPointAmended (l : List GexStrike) (spot : ℚ) : Option ℚ :=
  if l = [] then none
  else
    match firstMinBy (fun x => |x - spot|) (claimCrossings (cumPairs l 0)) with
    | some flip => some flip
    | none => (firstMinBy (fun p => |p.2|) (cumPairs l 0)).map Prod.fst

/-- First-minimum scan with cached key: the common shape of the `min(...)`
call and the fallback loop. -/
def minScan (key : α → ℚ) : List α → Option (ℚ × α) → Option (ℚ × α)
  | [], best => best
  | x :: rest, best =>
    minScan key rest
      (match best with
       | none => some (key x, x)
       | some (m, s) => if key x < m then some (key x, x) else some (m, s))

lemma minFromK_all_ge (key : α → ℚ) (l : List α) (m : ℚ)
    (h : ∀ x ∈ l, m ≤ key x) : minFromK key l m = m := by
  induction l generalizing m with
  | nil => rfl
  | cons x rest ih =>
    rw [minFromK, min_eq_left (h x (List.mem_cons_self x rest))]
    exact ih m fun y hy => h y (List.mem_cons_of_mem x hy)

lemma minFromK_le_init (key : α → ℚ) (l : List α) (m : ℚ) :
    minFromK key l m ≤ m := by
  induction l generalizing m with
  | nil => exact le_refl m
  | cons x rest ih =>
    rw [minFromK]
    exact (ih (min m (key x))).trans (min_le_left _ _)

lemma minFromK_le_mem (key : α → ℚ) (l : List α) (m : ℚ) (x : α)
    (hx : x ∈ l) : minFromK key l m ≤ key x := by
  induction l generalizing m with
  | nil => cases hx
  | cons y rest ih =>
    rw [minFromK]
    rcases List.mem_cons.mp hx with rfl | hx'
    · exact (minFromK_le_init key rest _).trans (min_le_right _ _)
    · exact ih _ hx'

lemma minScan_all_ge (key : α → ℚ) (l : List α) (m : ℚ) (s : α)
    (h : ∀ x ∈ l, m ≤ key x) : minScan key l (some (m, s)) = some (m, s) := by
  induction l generalizing m s with
  | nil => rfl
  | cons x rest ih =>
    rw [minScan]
    have hx : ¬ key x < m := not_lt.mpr (h x (List.mem_cons_self x rest))
    simp only [hx, if_false]
    exact ih m s fun y hy => h y (List.mem_cons_of_mem x hy)

lemma minScan_exists (key : α → ℚ) (l : List α) (m : ℚ) (s : α)
    (h : ∃ x ∈ l, key x < m) :
    minScan key l (some (m, s)) =
      (l.find? (fun x => key x = minFromK key l m)).map
        (fun x => (minFromK key l m, x)) := by
  induction l generalizing m s with
  | nil => obtain ⟨x, hx, -⟩ := h; cases hx
  | cons x rest ih =>
    rw [minScan, minFromK]
    by_cases hx : key x < m
    · rw [min_eq_right hx.le]
      simp only [hx, if_true]
      by_cases hrest : ∀ y ∈ rest, key x ≤ key y
      · rw [minScan_all_ge key rest (key x) x hrest,
          minFromK_all_ge key rest (key x) hrest,
          List.find?_cons_of_pos _ (by simp)]
        rfl
      · push_neg at hrest
        obtain ⟨y, hy, hylt⟩ := hrest
        rw [ih (key x) x ⟨y, hy, hylt⟩,
          List.find?_cons_of_neg _ (by
            simp only [decide_eq_true_eq]
            exact ne_of_gt (lt_of_le_of_lt (minFromK_le_mem key rest _ y hy) hylt))]
    · rw [min_eq_left (not_lt.mp hx)]
      simp only [hx, if_false]
      obtain ⟨y, hy, hylt⟩ := h
      rcases List.mem_cons.mp hy with rfl | hy'
      · exact absurd hylt hx
      · rw [ih m s ⟨y, hy', hylt⟩,
          List.find?_cons_of_neg _ (by
            simp only [decide_eq_true_eq]
            exact ne_of_gt (lt_of_lt_of_le
              (lt_of_le_of_lt (minFromK_le_mem key rest m y hy') hylt)
              (not_lt.mp hx)))]

lemma minScan_firstMinBy (key : α → ℚ) (l : List α) :
    (minScan key l none).map (fun p => p.2) = firstMinBy key l := by
  cases l with
  | nil => rfl
  | cons x rest =>
    rw [minScan, firstMinBy]
    by_cases hrest : ∀ y ∈ rest, key x ≤ key y
    · rw [minScan_all_ge key rest (key x) x hrest,
        List.find?_cons_of_pos _ (by
          simp only [decide_eq_true_eq]
          exact (minFromK_all_ge key rest (key x) hrest).symm)]
      rfl
    · push_neg at hrest
      obtain ⟨y, hy, hylt⟩ := hrest
      rw [minScan_exists key rest (key x) x ⟨y, hy, hylt⟩,
        List.find?_cons_of_neg _ (by
          simp only [decide_eq_true_eq]
          exact ne_of_gt (lt_of_le_of_lt (minFromK_le_mem key rest _ y hy) hylt)),
        Option.map_map]
      simp [Function.comp]

lemma closestAux_minScan (spot : ℚ) (l : List ℚ) (b : ℚ) :
    closestAux spot l (some b) =
      (minScan (fun x => |x - spot|) l (some (|b - spot|, b))).map (fun p => p.2) := by
  induction l generalizing b with
  | nil => rfl
  | cons x rest ih =>
    rw [closestAux, minScan]
    by_cases hx : |x - spot| < |b - spot|
    · simp only [hx, if_true]
      exact ih x
    · simp only [hx, if_false]
      exact ih b

lemma closestTo_firstMinBy (spot : ℚ) (l : List ℚ) :
    closestTo spot l = firstMinBy (fun x => |x - spot|) l := by
  cases l with
  | nil => rfl
  | cons x rest =>
    rw [closestTo, closestAux, ← minScan_firstMinBy, minScan]
    exact closestAux_minScan spot rest x

lemma fallbackAux_minScan (l : List GexStrike) (c m : ℚ) (q : ℚ × ℚ) :
    fallbackAux l c (some (m, q.1)) =
      (minScan (fun p : ℚ × ℚ => |p.2|) (cumPairs l c) (some (m, q))).map
        (fun r => r.2.1) := by
  induction l generalizing c m q with
  | nil => rfl
  | cons gs rest ih =>
    rw [fallbackAux, cumPairs, minScan]
    by_cases hx : |c + gs.total_gex| < m
    · simp only [hx, if_true]
      exact ih (c + gs.total_gex) |c + gs.total_gex| (gs.strike, c + gs.total_gex)
    · simp only [hx, if_false]
      exact ih (c + gs.total_gex) m q

lemma fallbackAux_firstMinBy (l : List GexStrike) (c : ℚ) :
    fallbackAux l c none =
      (firstMinBy (fun p : ℚ × ℚ => |p.2|) (cumPairs l c)).map Prod.fst := by
  cases l with
  | nil => rfl
  | cons gs rest =>
    rw [fallbackAux, cumPairs, ← minScan_firstMinBy, minScan, Option.map_map]
    exact fallbackAux_minScan rest (c + gs.total_gex) |c + gs.total_gex|
      (gs.strike, c + gs.total_gex)

lemma crossingsAux_claim (l : List GexStrike) (c s : ℚ) :
    crossingsAux l c (some s) = claimCrossings ((s, c) :: cumPairs l c) := by
  induction l generalizing c s with
  | nil => rfl
  | cons gs rest ih =>
    rw [crossingsAux, cumPairs, claimCrossings, ih]
    rfl

lemma crossingsAux_top (l : List GexStrike) :
    crossingsAux l 0 none = claimCrossings (cumPairs l 0) := by
  cases l with
  | nil => rfl
  | cons gs rest =>
    rw [crossingsAux, cumPairs, crossingsAux_claim]
    rfl

/-- A strike-ladder entry carrying only the fields `_find_flip_point` reads
(strike and total GEX); the other fields are zeroed. -/
def ladder (strike total : ℚ) : GexStrike :=
  { strike := strike, call_gex := total, put_gex := 0, total_gex := total,
    call_oi := 0, put_oi := 0, call_gamma := 0, put_gamma := 0,
    vex := 0, cex := 0, moneyness := "OTM" }

/-- C1 counterexample: on the two-strike ladder with cumulative GEX
`-1/25000` at strike 100 and `+1/25000` at strike 200, the difference of the
bracketing cumulative sums is `2/25000 ≤ 0.0001`, so the source returns the
strike 200 itself, while the claim's interpolation formula places the only
crossing at 150. -/
theorem c1_counterexample :
    _find_flip_point [ladder 100 (-1/25000), ladder 200 (2/25000)] 100 =
      some 200 ∧
    (100 : ℚ) + (|(-1/25000 : ℚ)| / |1/25000 - (-1/25000 : ℚ)|) * (200 - 100) =
      150 ∧
    (200 : ℚ) ≠ 150 := by
  refine ⟨by decide, by decide, by norm_num⟩

/-- C1 (amended): `_find_flip_point` walks the strikes in input (ascending)
order accumulating the running sum of `total_gex`; at each sign flip between
consecutive strikes it records the linear interpolation
`prev_strike + (|prev_cumsum| / |cumsum - prev_cumsum|) * (strike - prev_strike)`
provided `|cumsum - prev_cumsum| > 0.0001` (otherwise the current strike
itself); if at least one crossing exists, the first crossing numerically
closest to spot is returned, and otherwise the first strike whose running
cumulative sum has the smallest absolute value.  On the claim's ladder with
cumulative GEX `-2` at strike 100 and `+1` at strike 200, the flip point is
`100 + (2/3) * 100 = 500/3`. -/
theorem c1_flip_point_amended :
    (∀ (l : List GexStrike) (spot : ℚ),
      _find_flip_point l spot = flipPointAmended l spot) ∧
    _find_flip_point [ladder 100 (-2), ladder 200 3] 150 = some (500/3) := by
  constructor
  · intro l spot
    rw [_find_flip_point, flipPointAmended]
    by_cases h : l = []
    · rw [if_pos h, if_pos h]
    · rw [if_neg h, if_neg h, crossingsAux_top, ← closestTo_firstMinBy]
      cases closestTo spot (claimCrossings (cumPairs l 0)) with
      | none => exact fallbackAux_firstMinBy l 0
      | some flip => rfl
  · decide

/-! ## analytics.py : max pain -/

/-- Combined open interest of one strike entry (`call_oi + put_oi`). -/
def oiSum (gs : GexStrike) : ℤ := gs.call_oi + gs.put_oi

/-- Loop of `_find_max_pain`: keeps the strike with the highest combined OI,
replacing the running best only on a strictly greater total (so the first
maximum in iteration order wins); the running maximum starts at 0 and the
best strike at `None`. -/
def mpAux : List GexStrike → ℤ → Option ℚ → Option ℚ
  | [], _, best => best
  | gs :: rest, max_oi, best =>
    if oiSum gs > max_oi then mpAux rest (oiSum gs) (some gs.strike)
    else mpAux rest max_oi best

/-- Method `AnalyticsService._find_max_pain` (analytics.py). -/
def _find_max_pain (gex_strikes : List GexStrike) : Option ℚ :=
  if gex_strikes = [] then none
  else mpAux gex_strikes 0 none

/-- Running `max m (oiSum gs)` over all entries of the list. -/
def maxFromK : List GexStrike → ℤ → ℤ
  | [], m => m
  | gs :: rest, m => maxFromK rest (max m (oiSum gs))

/-- C9 claim side: the first strike (in iteration order) whose combined open
interest attains the greatest value. -/
def maxPainClaim (l : List GexStrike) : Option ℚ :=
  (l.find? (fun gs => oiSum gs = maxFromK l 0)).map (fun gs => gs.strike)

lemma maxFromK_all_le (l : List GexStrike) (m : ℤ)
    (h : ∀ x ∈ l, oiSum x ≤ m) : maxFromK l m = m := by
  induction l generalizing m with
  | nil => rfl
  | cons gs rest ih =>
    rw [maxFromK, max_eq_left (h gs (List.mem_cons_self gs rest))]
    exact ih m fun y hy => h y (List.mem_cons_of_mem gs hy)

lemma maxFromK_ge_init (l : List GexStrike) (m : ℤ) : m ≤ maxFromK l m := by
  induction l generalizing m with
  | nil => exact le_refl m
  | cons gs rest ih =>
    rw [maxFromK]
    exact (le_max_left _ _).trans (ih (max m (oiSum gs)))

lemma maxFromK_ge_mem (l : List GexStrike) (m : ℤ) (x : GexStrike)
    (hx : x ∈ l) : oiSum x ≤ maxFromK l m := by
  induction l generalizing m with
  | nil => cases hx
  | cons gs rest ih =>
    rw [maxFromK]
    rcases List.mem_cons.mp hx with rfl | hx'
    · exact (le_max_right _ _).trans (maxFromK_ge_init rest _)
    · exact ih _ hx'

lemma mpAux_all_le (l : List GexStrike) (m : ℤ) (best : Option ℚ)
    (h : ∀ x ∈ l, oiSum x ≤ m) : mpAux l m best = best := by
  induction l generalizing m best with
  | nil => rfl
  | cons gs rest ih =>
    rw [mpAux]
    have hx : ¬ oiSum gs > m := not_lt.mpr (h gs (List.mem_cons_self gs rest))
    simp only [hx, if_false]
    exact ih m best fun y hy => h y (List.mem_cons_of_mem gs hy)

lemma mpAux_exists (l : List GexStrike) (m : ℤ) (best : Option ℚ)
    (h : ∃ x ∈ l, m < oiSum x) :
    mpAux l m best =
      (l.find? (fun gs => oiSum gs = maxFromK l m)).map (fun gs => gs.strike) := by
  induction l generalizing m best with
  | nil => obtain ⟨x, hx, -⟩ := h; cases hx
  | cons gs rest ih =>
    rw [mpAux, maxFromK]
    by_cases hx : oiSum gs > m
    · rw [max_eq_right hx.le]
      simp only [hx, if_true]
      by_cases hrest : ∀ y ∈ rest, oiSum y ≤ oiSum gs
      · rw [mpAux_all_le rest (oiSum gs) (some gs.strike) hrest,
          maxFromK_all_le rest (oiSum gs) hrest,
          List.find?_cons_of_pos _ (by simp)]
        rfl
      · push_neg at hrest
        obtain ⟨y, hy, hylt⟩ := hrest
        rw [ih (oiSum gs) (some gs.strike) ⟨y, hy, hylt⟩,
          List.find?_cons_of_neg _ (by
            simp only [decide_eq_true_eq]
            exact ne_of_lt (lt_of_lt_of_le hylt (maxFromK_ge_mem rest _ y hy)))]
    · rw [max_eq_left (not_lt.mp hx)]
      simp only [hx, if_false]
      obtain ⟨y, hy, hylt⟩ := h
      rcases List.mem_cons.mp hy with rfl | hy'
      · exact absurd hylt hx
      · rw [ih m best ⟨y, hy', hylt⟩,
          List.find?_cons_of_neg _ (by
            simp only [decide_eq_true_eq]
            exact ne_of_lt (lt_of_le_of_lt (not_lt.mp hx)
              (lt_of_lt_of_le hylt (maxFromK_ge_mem rest m y hy'))))]

/-- A strike entry with the given combined open interest on the call side
and every other field zeroed. -/
def oiEntry (strike : ℚ) (oi : ℤ) : GexStrike :=
  { strike := strike, call_gex := 0, put_gex := 0, total_gex := 0,
    call_oi := oi, put_oi := 0, call_gamma := 0, put_gamma := 0,
    vex := 0, cex := 0, moneyness := "OTM" }

/-- C9 counterexample: on a non-empty ladder whose only strike has zero
combined open interest, `_find_max_pain` returns `None` instead of that
strike (100) as the claim requires. -/
theorem c9_counterexample :
    _find_max_pain [oiEntry 100 0] = none ∧
    _find_max_pain [oiEntry 100 0] ≠ some 100 := by
  refine ⟨by decide, by decide⟩

/-- C9 (amended): provided at least one strike has positive combined open
interest, max pain is the strike with the greatest `call_oi + put_oi`, ties
broken by the first such strike in iteration (ascending) order; when every
strike's combined open interest is non-positive the source returns `None`.
On combined open interests `[500, 1200, 300]` the strike with 1200 is
selected. -/
theorem c9_max_pain_amended :
    (∀ l : List GexStrike, (∃ gs ∈ l, 0 < oiSum gs) →
      _find_max_pain l = maxPainClaim l) ∧
    _find_max_pain [oiEntry 90 500, oiEntry 100 1200, oiEntry 110 300] =
      some 100 := by
  constructor
  · intro l h
    have hne : l ≠ [] := by
      obtain ⟨gs0, hmem, -⟩ := h
      exact List.ne_nil_of_mem hmem
    rw [_find_max_pain, if_neg hne, maxPainClaim, mpAux_exists l 0 none h]
  · decide

/-- C9 witness: the amended characterization applied to the concrete
three-strike ladder. -/
theorem c9_max_pain_amended_witness :
    _find_max_pain [oiEntry 90 500, oiEntry 100 1200, oiEntry 110 300] =
      maxPainClaim [oiEntry 90 500, oiEntry 100 1200, oiEntry 110 300] :=
  c9_max_pain_amended.1 _ (by decide)

/-! ## analytics.py : GEX/VEX/CEX aggregation -/

/-- One option contract as consumed by `calculate_gex_profile`.  The source
reads the fields out of a dict, coalescing absent or `None` gamma, vanna,
charm and open interest to 0 (`opt.get(...) or 0`) and the type to `''`;
absent values are modelled by those defaults here. -/
structure OptContract where
  strike : ℚ
  option_type : String
  gamma : ℚ
  oi : ℤ
  vanna : ℚ
  charm : ℚ
deriving DecidableEq, Repr

/-- Predicate `is_call = opt_type == 'call'` after lower-casing. -/
def isCallOpt (o : OptContract) : Bool := lowStr o.option_type == "call"

/-- Method `AnalyticsService.calculate_single_gex`:
`gamma * OI * 100 * spot^2 * 0.01 * direction`, scaled to millions; zero
gamma or OI contributes exactly 0 (the `gamma is None` guard of the source is
subsumed by the upstream `or 0` coalescing in this model). -/
def calculate_single_gex (gamma : ℚ) (open_interest : ℤ) (spot_price : ℚ)
    (is_call : Bool) : ℚ :=
  if gamma = 0 ∨ open_interest = 0 then 0
  else
    gamma * (open_interest : ℚ) * 100 * spot_price ^ 2 * (1/100) *
      (if is_call then 1 else -1) / 1000000

/-- Method `AnalyticsService.calculate_single_vex`:
`vanna * OI * 100 * spot * 0.01 * direction`, scaled to millions. -/
def calculate_single_vex (vanna : ℚ) (open_interest : ℤ) (spot_price : ℚ)
    (is_call : Bool) : ℚ :=
  if vanna = 0 ∨ open_interest = 0 then 0
  else
    vanna * (open_interest : ℚ) * 100 * spot_price * (1/100) *
      (if is_call then 1 else -1) / 1000000

/-- Method `AnalyticsService.calculate_single_cex`:
`charm * OI * 100 * spot / 365 * direction`, scaled to thousands. -/
def calculate_single_cex (charm : ℚ) (open_interest : ℤ) (spot_price : ℚ)
    (is_call : Bool) : ℚ :=
  if charm = 0 ∨ open_interest = 0 then 0
  else
    charm * (open_interest : ℚ) * 100 * spot_price / 365 *
      (if is_call then 1 else -1) / 1000

/-- Per-strike accumulator of `calculate_gex_profile` (the dict created on
first sight of a strike). -/
structure StrikeAcc where
  call_gamma : ℚ
  put_gamma : ℚ
  call_oi : ℤ
  put_oi : ℤ
  call_gex : ℚ
  put_gex : ℚ
  call_vanna : ℚ
  put_vanna : ℚ
  call_charm : ℚ
  put_charm : ℚ
  vex : ℚ
  cex : ℚ
deriving DecidableEq, Repr

/-- The all-zero accumulator installed when a strike is first seen. -/
def initAcc : StrikeAcc :=
  { call_gamma := 0, put_gamma := 0, call_oi := 0, put_oi := 0,
    call_gex := 0, put_gex := 0, call_vanna := 0, put_vanna := 0,
    call_charm := 0, put_charm := 0, vex := 0, cex := 0 }

/-- Body of the grouping loop for one contract: the side fields are
overwritten (`=`), vex/cex accumulate (`+=`). -/
def accUpdate (spot : ℚ) (o : OptContract) (a : StrikeAcc) : StrikeAcc :=
  let gex := calculate_single_gex o.gamma o.oi spot (isCallOpt o)
  let vex := calculate_single_vex o.vanna o.oi spot (isCallOpt o)
  let cex := calculate_single_cex o.charm o.oi spot (isCallOpt o)
  let a' :=
    if isCallOpt o then
      { a with call_gamma := o.gamma, call_oi := o.oi, call_gex := gex,
               call_vanna := o.vanna, call_charm := o.charm }
    else
      { a with put_gamma := o.gamma, put_oi := o.oi, put_gex := gex,
               put_vanna := o.vanna, put_charm := o.charm }
  { a' with vex := a'.vex + vex, cex := a'.cex + cex }

/-- Update of the insertion-ordered strike map: modify the entry in place if
the key exists, append a fresh entry (from `initAcc`) otherwise. -/
def mapUpd (m : List (ℚ × StrikeAcc)) (k : ℚ) (f : StrikeAcc → StrikeAcc) :
    List (ℚ × StrikeAcc) :=
  match m with
  | [] => [(k, f initAcc)]
  | (k', a) :: rest => if k' = k then (k', f a) :: rest else (k', a) :: mapUpd rest k f

/-- One step of the grouping loop: contracts with non-positive strikes are
skipped. -/
def gexStep (spot : ℚ) (m : List (ℚ × StrikeAcc)) (o : OptContract) :
    List (ℚ × StrikeAcc) :=
  if o.strike ≤ 0 then m else mapUpd m o.strike (accUpdate spot o)

/-- The `strikes_map` dict after the grouping loop. -/
def buildMap (spot : ℚ) (options_data : List OptContract) :
    List (ℚ × StrikeAcc) :=
  options_data.foldl (gexStep spot) []

/-- Association-list lookup on the strike map. -/
def alookup (k : ℚ) : List (ℚ × StrikeAcc) → Option StrikeAcc
  | [] => none
  | (k', a) :: rest => if k' = k then some a else alookup k rest

/-- Ascending insertion (Python `sorted`). -/
def insertAsc (x : ℚ) : List ℚ → List ℚ
  | [] => [x]
  | y :: rest => if x ≤ y then x :: y :: rest else y :: insertAsc x rest

/-- Ascending sort of the strike keys (Python `sorted(strikes_map.keys())`). -/
def sortAsc (l : List ℚ) : List ℚ := l.foldr insertAsc []

/-- Method `AnalyticsService._classify_moneyness` (analytics.py). -/
def _classify_moneyness (strike spot_price : ℚ) : String :=
  if strike / spot_price < 95/100 then "ITM"
  else if strike / spot_price > 105/100 then "OTM"
  else "ATM"

/-- The `GexStrike` built from one accumulator
(`total_gex = call_gex + put_gex` by construction). -/
def mkGexStrike (spot k : ℚ) (a : StrikeAcc) : GexStrike :=
  { strike := k, call_gex := a.call_gex, put_gex := a.put_gex,
    total_gex := a.call_gex + a.put_gex, call_oi := a.call_oi,
    put_oi := a.put_oi, call_gamma := a.call_gamma, put_gamma := a.put_gamma,
    vex := a.vex, cex := a.cex, moneyness := _classify_moneyness k spot }

/-- Method `AnalyticsService.calculate_gex_profile` (analytics.py). -/
def calculate_gex_profile (options_data : List OptContract) (spot_price : ℚ) :
    GexProfile :=
  let m := buildMap spot_price options_data
  let gex_strikes := (sortAsc (m.map Prod.fst)).map
    (fun k => mkGexStrike spot_price k ((alookup k m).getD initAcc))
  let total_call_gex := (gex_strikes.map (fun s => s.call_gex)).sum
  let total_put_gex := (gex_strikes.map (fun s => s.put_gex)).sum
  let net_gex := total_call_gex + total_put_gex
  let total_vex := (gex_strikes.map (fun s => s.vex)).sum
  let total_cex := (gex_strikes.map (fun s => s.cex)).sum
  let flip_point := _find_flip_point gex_strikes spot_price
  let max_pain := _find_max_pain gex_strikes
  let local_gex := ((gex_strikes.filter (fun s =>
    decide (spot_price * (95/100) ≤ s.strike) &&
    decide (s.strike ≤ spot_price * (105/100)))).map (fun s => s.total_gex)).sum
  -- `if flip_point and spot < flip_point`: a `0.0` flip point is falsy
  let gex_regime :=
    match flip_point with
    | some f =>
      if f ≠ 0 ∧ spot_price < f then "NEGATIVE"
      else if f ≠ 0 ∧ spot_price > f then "POSITIVE"
      else "NEUTRAL"
    | none => "NEUTRAL"
  { spot_price := spot_price, flip_point := flip_point,
    total_call_gex := total_call_gex, total_put_gex := total_put_gex,
    net_gex := net_gex, strikes := gex_strikes, max_pain := max_pain,
    total_vex := total_vex, total_cex := total_cex, gex_regime := gex_regime,
    local_gex := local_gex }

/-- Last element of a list, if any. -/
def lastOpt : List α → Option α
  | [] => none
  | [a] => some a
  | _ :: b :: rest => lastOpt (b :: rest)

lemma lastOpt_cons_cons (x y : α) (l : List α) :
    lastOpt (x :: y :: l) = lastOpt (y :: l) := rfl

lemma lastOpt_ne_none (x : α) (xs : List α) : lastOpt (x :: xs) ≠ none := by
  induction xs generalizing x with
  | nil => simp [lastOpt]
  | cons y ys ih => rw [lastOpt_cons_cons]; exact ih y

lemma alookup_mapUpd (m : List (ℚ × StrikeAcc)) (kt k : ℚ)
    (f : StrikeAcc → StrikeAcc) :
    alookup k (mapUpd m kt f) =
      if kt = k then some (f ((alookup k m).getD initAcc))
      else alookup k m := by
  induction m with
  | nil => by_cases h : kt = k <;> simp [mapUpd, alookup, h]
  | cons p rest ih =>
    obtain ⟨k₀, a⟩ := p
    by_cases h0 : k₀ = kt
    · subst h0
      by_cases hk : k₀ = k <;> simp [mapUpd, alookup, hk]
    · by_cases hk : k₀ = k
      · subst hk
        have hne : ¬ kt = k₀ := fun h => h0 h.symm
        simp [mapUpd, alookup, h0, hne]
      · simp [mapUpd, alookup, h0, hk, ih]

lemma alookup_foldl (spot : ℚ) (opts : List OptContract)
    (m : List (ℚ × StrikeAcc)) (k : ℚ) :
    alookup k (opts.foldl (gexStep spot) m) =
      opts.foldl
        (fun a? o =>
          if 0 < o.strike ∧ o.strike = k
          then some (accUpdate spot o (a?.getD initAcc)) else a?)
        (alookup k m) := by
  induction opts generalizing m with
  | nil => rfl
  | cons o rest ih =>
    rw [List.foldl_cons, List.foldl_cons, ih]
    congr 1
    rw [gexStep]
    by_cases hs : o.strike ≤ 0
    · rw [if_pos hs, if_neg (fun h => absurd h.1 (not_lt.mpr hs))]
    · rw [if_neg hs, alookup_mapUpd]
      by_cases hk : o.strike = k
      · rw [if_pos hk, if_pos ⟨not_le.mp hs, hk⟩]
      · rw [if_neg hk, if_neg (fun h => hk h.2)]

lemma optFold_filter (spot k : ℚ) (opts : List OptContract)
    (a? : Option StrikeAcc) :
    opts.foldl
        (fun a? o =>
          if 0 < o.strike ∧ o.strike = k
          then some (accUpdate spot o (a?.getD initAcc)) else a?)
        a? =
      (opts.filter (fun o => decide (0 < o.strike) && decide (o.strike = k))).foldl
        (fun a? o => some (accUpdate spot o (a?.getD initAcc))) a? := by
  induction opts generalizing a? with
  | nil => rfl
  | cons o rest ih =>
    rw [List.foldl_cons]
    by_cases h : 0 < o.strike ∧ o.strike = k
    · rw [if_pos h, List.filter_cons_of_pos (by
        simp only [Bool.and_eq_true, decide_eq_true_eq]
        exact ⟨h.1, h.2⟩), List.foldl_cons, ih]
    · rw [if_neg h, List.filter_cons_of_neg (by
        simp only [Bool.and_eq_true, decide_eq_true_eq]
        exact h), ih]

lemma optFold_some (spot : ℚ) (fl : List OptContract) (a : StrikeAcc) :
    fl.foldl (fun a? o => some (accUpdate spot o (a?.getD initAcc))) (some a) =
      some (fl.foldl (fun a o => accUpdate spot o a) a) := by
  induction fl generalizing a with
  | nil => rfl
  | cons o rest ih =>
    rw [List.foldl_cons, List.foldl_cons, Option.getD_some, ih]

/-- The per-strike accumulator as a fold over the contracts at that strike. -/
def accFold (spot : ℚ) (fl : List OptContract) (a : StrikeAcc) : StrikeAcc :=
  fl.foldl (fun a o => accUpdate spot o a) a

lemma accFold_call (spot : ℚ) (fl : List OptContract) (a : StrikeAcc) :
    ((accFold spot fl a).call_gamma, (accFold spot fl a).call_oi,
      (accFold spot fl a).call_gex) =
      (match lastOpt (fl.filter isCallOpt) with
       | none => (a.call_gamma, a.call_oi, a.call_gex)
       | some o => (o.gamma, o.oi, calculate_single_gex o.gamma o.oi spot true)) := by
  induction fl generalizing a with
  | nil => rfl
  | cons o rest ih =>
    have hstep : accFold spot (o :: rest) a = accFold spot rest (accUpdate spot o a) := rfl
    rw [hstep, ih]
    cases hc : isCallOpt o with
    | false =>
      rw [List.filter_cons_of_neg (by simp [hc])]
      rcases hl : lastOpt (rest.filter isCallOpt) with _ | o'
      · simp [hl, accUpdate, hc]
      · simp [hl]
    | true =>
      rw [List.filter_cons_of_pos hc]
      rcases hfr : rest.filter isCallOpt with _ | ⟨y, l'⟩
      · rw [hfr] at *
        simp [lastOpt, accUpdate, hc]
      · rw [hfr] at *
        rw [lastOpt_cons_cons]
        rcases hl : lastOpt (y :: l') with _ | o'
        · exact absurd hl (lastOpt_ne_none y l')
        · simp [hl]

lemma accFold_put (spot : ℚ) (fl : List OptContract) (a : StrikeAcc) :
    ((accFold spot fl a).put_gamma, (accFold spot fl a).put_oi,
      (accFold spot fl a).put_gex) =
      (match lastOpt (fl.filter (fun o => ! isCallOpt o)) with
       | none => (a.put_gamma, a.put_oi, a.put_gex)
       | some o => (o.gamma, o.oi, calculate_single_gex o.gamma o.oi spot false)) := by
  induction fl generalizing a with
  | nil => rfl
  | cons o rest ih =>
    have hstep : accFold spot (o :: rest) a = accFold spot rest (accUpdate spot o a) := rfl
    rw [hstep, ih]
    cases hc : isCallOpt o with
    | true =>
      rw [List.filter_cons_of_neg (by simp [hc])]
      rcases hl : lastOpt (rest.filter (fun o => ! isCallOpt o)) with _ | o'
      · simp [hl, accUpdate, hc]
      · simp [hl]
    | false =>
      rw [List.filter_cons_of_pos (by simp [hc])]
      rcases hfr : rest.filter (fun o => ! isCallOpt o) with _ | ⟨y, l'⟩
      · rw [hfr] at *
        simp [lastOpt, accUpdate, hc]
      · rw [hfr] at *
        rw [lastOpt_cons_cons]
        rcases hl : lastOpt (y :: l') with _ | o'
        · exact absurd hl (lastOpt_ne_none y l')
        · simp [hl]

lemma accFold_vex (spot : ℚ) (fl : List OptContract) (a : StrikeAcc) :
    (accFold spot fl a).vex =
      a.vex + (fl.map (fun o =>
        calculate_single_vex o.vanna o.oi spot (isCallOpt o))).sum := by
  induction fl generalizing a with
  | nil => simp [accFold]
  | cons o rest ih =>
    have hstep : accFold spot (o :: rest) a = accFold spot rest (accUpdate spot o a) := rfl
    rw [hstep, ih]
    have hacc : (accUpdate spot o a).vex =
        a.vex + calculate_single_vex o.vanna o.oi spot (isCallOpt o) := by
      cases hc : isCallOpt o <;> simp [accUpdate, hc]
    rw [hacc, List.map_cons, List.sum_cons]
    ring

lemma accFold_cex (spot : ℚ) (fl : List OptContract) (a : StrikeAcc) :
    (accFold spot fl a).cex =
      a.cex + (fl.map (fun o =>
        calculate_single_cex o.charm o.oi spot (isCallOpt o))).sum := by
  induction fl generalizing a with
  | nil => simp [accFold]
  | cons o rest ih =>
    have hstep : accFold spot (o :: rest) a = accFold spot rest (accUpdate spot o a) := rfl
    rw [hstep, ih]
    have hacc : (accUpdate spot o a).cex =
        a.cex + calculate_single_cex o.charm o.oi spot (isCallOpt o) := by
      cases hc : isCallOpt o <;> simp [accUpdate, hc]
    rw [hacc, List.map_cons, List.sum_cons]
    ring

lemma mem_insertAsc {x y : ℚ} {l : List ℚ} :
    y ∈ insertAsc x l ↔ y = x ∨ y ∈ l := by
  induction l with
  | nil => simp [insertAsc]
  | cons z rest ih =>
    rw [insertAsc]
    by_cases h : x ≤ z
    · simp [h]
    · simp only [h, if_false, List.mem_cons, ih]
      tauto

lemma mem_sortAsc {x : ℚ} {l : List ℚ} : x ∈ sortAsc l ↔ x ∈ l := by
  induction l with
  | nil => simp [sortAsc]
  | cons y rest ih =>
    simp only [sortAsc, List.foldr_cons] at *
    rw [mem_insertAsc, ih, List.mem_cons]

lemma alookup_of_mem_keys {k : ℚ} {m : List (ℚ × StrikeAcc)}
    (h : k ∈ m.map Prod.fst) : ∃ a, alookup k m = some a := by
  induction m with
  | nil => cases h
  | cons p rest ih =>
    obtain ⟨k₀, a⟩ := p
    rcases List.mem_cons.mp h with h0 | h'
    · refine ⟨a, ?_⟩
      have hk : k₀ = k := by simpa using h0.symm
      simp [alookup, hk]
    · by_cases hk : k₀ = k
      · exact ⟨a, by simp [alookup, hk]⟩
      · obtain ⟨b, hb⟩ := ih h'
        exact ⟨b, by simp [alookup, hk, hb]⟩

/-- The contracts of the input that land on strike `k` (positive-strike guard
included), in input order. -/
def allAt (options : List OptContract) (k : ℚ) : List OptContract :=
  options.filter (fun o => decide (0 < o.strike) && decide (o.strike = k))

/-- The call-side contracts at strike `k`, in input order. -/
def callsAt (options : List OptContract) (k : ℚ) : List OptContract :=
  (allAt options k).filter isCallOpt

/-- The put-side contracts at strike `k`, in input order. -/
def putsAt (options : List OptContract) (k : ℚ) : List OptContract :=
  (allAt options k).filter (fun o => ! isCallOpt o)

lemma alookup_buildMap (spot : ℚ) (options : List OptContract) (k : ℚ) :
    alookup k (buildMap spot options) =
      if allAt options k = [] then none
      else some (accFold spot (allAt options k) initAcc) := by
  rw [buildMap, alookup_foldl]
  have h0 : alookup k ([] : List (ℚ × StrikeAcc)) = none := rfl
  rw [h0, optFold_filter]
  rcases hAll : allAt options k with _ | ⟨o, rest⟩
  · rw [allAt] at hAll
    rw [hAll]
    rfl
  · rw [allAt] at hAll
    rw [hAll, if_neg (by simp), List.foldl_cons, Option.getD_none, optFold_some]
    rfl

lemma strikes_entry (options : List OptContract) (spot : ℚ) (gs : GexStrike)
    (h : gs ∈ (calculate_gex_profile options spot).strikes) :
    ∃ k a, alookup k (buildMap spot options) = some a ∧
      gs = mkGexStrike spot k a := by
  simp only [calculate_gex_profile] at h
  obtain ⟨k, hk, hgs⟩ := List.mem_map.mp h
  obtain ⟨a, ha⟩ := alookup_of_mem_keys (mem_sortAsc.mp hk)
  refine ⟨k, a, ha, ?_⟩
  rw [← hgs, ha, Option.getD_some]

/-- The duplicated-strike order-dependence pair: two call contracts at the
same strike with different gammas, in the two input orders. -/
def dupOptA : OptContract :=
  { strike := 100, option_type := "call", gamma := 1, oi := 10,
    vanna := 0, charm := 0 }

/-- Companion contract of `dupOptA` with a different gamma. -/
def dupOptB : OptContract :=
  { strike := 100, option_type := "call", gamma := 2, oi := 10,
    vanna := 0, charm := 0 }

/-- First input order of the duplicate pair. -/
def gexDupA : List OptContract := [dupOptA, dupOptB]

/-- Second input order of the duplicate pair. -/
def gexDupB : List OptContract := [dupOptB, dupOptA]

/-- C10: in `calculate_gex_profile`, for every produced per-strike entry the
call (resp. put) gamma/open-interest/GEX are exactly those of the LAST
call-side (resp. put-side) contract at that strike in input order — zero when
no such contract exists — while vex and cex are the SUMS of the contributions
of every contract at that strike; consequently the profile's net GEX differs
between two permutations of the same contracts when duplicate (strike, side)
pairs are present. -/
theorem c10_duplicate_strike_semantics :
    (∀ (options : List OptContract) (spot : ℚ) (gs : GexStrike),
      gs ∈ (calculate_gex_profile options spot).strikes →
      (gs.call_gamma, gs.call_oi, gs.call_gex) =
        (match lastOpt (callsAt options gs.strike) with
         | none => (0, 0, 0)
         | some o => (o.gamma, o.oi, calculate_single_gex o.gamma o.oi spot true)) ∧
      (gs.put_gamma, gs.put_oi, gs.put_gex) =
        (match lastOpt (putsAt options gs.strike) with
         | none => (0, 0, 0)
         | some o => (o.gamma, o.oi, calculate_single_gex o.gamma o.oi spot false)) ∧
      gs.vex = ((allAt options gs.strike).map (fun o =>
        calculate_single_vex o.vanna o.oi spot (isCallOpt o))).sum ∧
      gs.cex = ((allAt options gs.strike).map (fun o =>
        calculate_single_cex o.charm o.oi spot (isCallOpt o))).sum) ∧
    (calculate_gex_profile gexDupA 100).net_gex ≠
      (calculate_gex_profile gexDupB 100).net_gex ∧
    gexDupA.Perm gexDupB := by
  refine ⟨?_, by decide, ?_⟩
  · intro options spot gs hmem
    obtain ⟨k, a, ha, rfl⟩ := strikes_entry options spot gs hmem
    have hstrike : (mkGexStrike spot k a).strike = k := rfl
    rw [alookup_buildMap] at ha
    rcases hAll : allAt options k with _ | ⟨o, rest⟩
    · rw [hAll] at ha
      simp at ha
    · rw [hAll, if_neg (by simp)] at ha
      have haeq : a = accFold spot (o :: rest) initAcc := by
        injection ha.symm
      subst haeq
      rw [hstrike]
      refine ⟨?_, ?_, ?_, ?_⟩
      · rw [callsAt, hAll]
        exact accFold_call spot (o :: rest) initAcc
      · rw [putsAt, hAll]
        exact accFold_put spot (o :: rest) initAcc
      · rw [hAll]
        have := accFold_vex spot (o :: rest) initAcc
        rw [show initAcc.vex = 0 from rfl, zero_add] at this
        exact this
      · rw [hAll]
        have := accFold_cex spot (o :: rest) initAcc
        rw [show initAcc.cex = 0 from rfl, zero_add] at this
        exact this
  · show (dupOptA :: dupOptB :: []).Perm (dupOptB :: dupOptA :: [])
    exact List.Perm.swap dupOptB dupOptA []

/-- The single per-strike entry of `calculate_gex_profile gexDupA 100`. -/
def dupStrike : GexStrike :=
  { strike := 100, call_gex := 1/5, put_gex := 0, total_gex := 1/5,
    call_oi := 10, put_oi := 0, call_gamma := 2, put_gamma := 0,
    vex := 0, cex := 0, moneyness := "ATM" }

/-- C10 witness: the per-strike characterization applied to the concrete
duplicate-strike input (the recorded gamma is that of the last contract,
`dupOptB`). -/
theorem c10_duplicate_strike_semantics_witness :
    (dupStrike.call_gamma, dupStrike.call_oi, dupStrike.call_gex) =
      (match lastOpt (callsAt gexDupA dupStrike.strike) with
       | none => (0, 0, 0)
       | some o => (o.gamma, o.oi, calculate_single_gex o.gamma o.oi 100 true)) ∧
    (dupStrike.put_gamma, dupStrike.put_oi, dupStrike.put_gex) =
      (match lastOpt (putsAt gexDupA dupStrike.strike) with
       | none => (0, 0, 0)
       | some o => (o.gamma, o.oi, calculate_single_gex o.gamma o.oi 100 false)) ∧
    dupStrike.vex = ((allAt gexDupA dupStrike.strike).map (fun o =>
      calculate_single_vex o.vanna o.oi 100 (isCallOpt o))).sum ∧
    dupStrike.cex = ((allAt gexDupA dupStrike.strike).map (fun o =>
      calculate_single_cex o.charm o.oi 100 (isCallOpt o))).sum :=
  c10_duplicate_strike_semantics.1 gexDupA 100 dupStrike (by decide)

/-! ## market_data.py : ticker normalization

`MarketDataService._parse_option_ticker` tries three anchored regex patterns
in order; the matchers below implement each pattern's backtracking semantics
directly: the greedy 2–4 letter root is tried at lengths 4, 3, 2, and within
a fixed root the remaining segments are deterministic because the character
classes of adjacent segments (`[CV]`, `\d`, `\.`, `[A-Z]`) never overlap at
the points where a quantifier could give characters back. -/

/-- ASCII uppercase letter (`[A-Z]`). -/
def isUpperAZ (c : Char) : Bool := decide ('A' ≤ c) && decide (c ≤ 'Z')

/-- ASCII digit (`\d` on these inputs). -/
def isDigitC (c : Char) : Bool := decide ('0' ≤ c) && decide (c ≤ '9')

/-- ASCII whitespace (`str.strip` on these inputs). -/
def isSpaceC (c : Char) : Bool :=
  decide (c = ' ') || decide (c = '\t') || decide (c = '\n') || decide (c = '\r')

/-- Python `str.strip`. -/
def stripChars (cs : List Char) : List Char :=
  ((cs.dropWhile isSpaceC).reverse.dropWhile isSpaceC).reverse

/-- The four capture groups common to all three ticker patterns. -/
structure TickerGroups where
  symbol : List Char
  type_code : Char
  strike_str : List Char
  month_code : List Char
deriving DecidableEq, Repr

/-- Pattern 1 after the root: `([CV])(\d+)([A-Z]{1,2})$`. -/
def matchRest1 : List Char → Option (Char × List Char × List Char)
  | [] => none
  | c :: rest =>
    if c = 'C' ∨ c = 'V' then
      let ds := rest.takeWhile isDigitC
      let after := rest.dropWhile isDigitC
      if ds ≠ [] ∧ (after.length = 1 ∨ after.length = 2) ∧ after.all isUpperAZ
      then some (c, ds, after)
      else none
    else none

/-- Pattern 2 after the root: `([CV])(\d+\.?\d*)\.([A-Z]{2})$`.  The optional
dot of the strike is consumed greedily; if the literal dot then fails to
match, the matcher backtracks to an empty `\.?` with the first dot as the
literal one. -/
def matchRest2 : List Char → Option (Char × List Char × List Char)
  | [] => none
  | c :: rest =>
    if c = 'C' ∨ c = 'V' then
      let ds1 := rest.takeWhile isDigitC
      let after1 := rest.dropWhile isDigitC
      if ds1 = [] then none
      else
        match after1 with
        | '.' :: after2 =>
          let ds2 := after2.takeWhile isDigitC
          let after3 := after2.dropWhile isDigitC
          match after3 with
          | '.' :: after4 =>
            if after4.length = 2 ∧ after4.all isUpperAZ then
              some (c, ds1 ++ '.' :: ds2, after4)
            else if after2.length = 2 ∧ after2.all isUpperAZ then
              some (c, ds1, after2)
            else none
          | _ =>
            if after2.length = 2 ∧ after2.all isUpperAZ then
              some (c, ds1, after2)
            else none
        | _ => none
    else none

/-- Pattern 3 after the root: `([CV])(\d+\.?\d*)([A-Z]{2})$`. -/
def matchRest3 : List Char → Option (Char × List Char × List Char)
  | [] => none
  | c :: rest =>
    if c = 'C' ∨ c = 'V' then
      let ds1 := rest.takeWhile isDigitC
      let after1 := rest.dropWhile isDigitC
      if ds1 = [] then none
      else
        match after1 with
        | '.' :: after2 =>
          let ds2 := after2.takeWhile isDigitC
          let after3 := after2.dropWhile isDigitC
          if after3.length = 2 ∧ after3.all isUpperAZ then
            some (c, ds1 ++ '.' :: ds2, after3)
          else none
        | _ =>
          if after1.length = 2 ∧ after1.all isUpperAZ then some (c, ds1, after1)
          else none
    else none

/-- Split a root of exactly `n` uppercase letters off the front. -/
def splitRoot (n : ℕ) (cs : List Char) : Option (List Char × List Char) :=
  let r := cs.take n
  if r.length = n ∧ r.all isUpperAZ then some (r, cs.drop n) else none

/-- Match one pattern with a fixed root length. -/
def tryRoot (restMatch : List Char → Option (Char × List Char × List Char))
    (cs : List Char) (n : ℕ) : Option TickerGroups :=
  match splitRoot n cs with
  | none => none
  | some (r, rest) =>
    match restMatch rest with
    | none => none
    | some (c, s, m) =>
      some { symbol := r, type_code := c, strike_str := s, month_code := m }

/-- Match one pattern: the greedy `{2,4}` root tries lengths 4, 3, 2. -/
def matchPattern
    (restMatch : List Char → Option (Char × List Char × List Char))
    (cs : List Char) : Option TickerGroups :=
  match tryRoot restMatch cs 4 with
  | some g => some g
  | none =>
    match tryRoot restMatch cs 3 with
    | some g => some g
    | none => tryRoot restMatch cs 2

/-- The regex cascade of `_parse_option_ticker`: upper-case, strip, then try
the three patterns in order, first match winning. -/
def tickerMatch (ticker : String) : Option TickerGroups :=
  let cs := stripChars (upStr ticker).data
  match matchPattern matchRest1 cs with
  | some g => some g
  | none =>
    match matchPattern matchRest2 cs with
    | some g => some g
    | none => matchPattern matchRest3 cs

/-- Numeric value of a digit run. -/
def digitsVal (ds : List Char) : ℕ :=
  ds.foldl (fun a c => 10 * a + (c.toNat - 48)) 0

/-- Python `float()` on the matched strike substrings
(`\d+` optionally followed by `.` and `\d*`). -/
def parseStrike (cs : List Char) : ℚ :=
  let ds1 := cs.takeWhile isDigitC
  let rest := cs.dropWhile isDigitC
  match rest with
  | '.' :: ds2 =>
    (digitsVal ds1 : ℚ) + (digitsVal (ds2.takeWhile isDigitC) : ℚ) /
      (10 ^ (ds2.takeWhile isDigitC).length : ℚ)
  | _ => (digitsVal ds1 : ℚ)

/-- The parse result of `_parse_option_ticker`. -/
structure ParsedTicker where
  symbol : String
  option_type : String
  strike : ℚ
  month_code : String
  original_ticker : String
deriving DecidableEq, Repr

/-- The BYMA strike-decimal heuristic: parsed value above 20,000 with no
literal decimal point in the substring is divided by 10. -/
def strikeHeuristic (strike_str : List Char) : ℚ :=
  let strike := parseStrike strike_str
  if strike > 20000 ∧ ¬ strike_str.contains '.' then strike / 10 else strike

/-- Method `MarketDataService._parse_option_ticker` (market_data.py).  The
`float()` call cannot fail on a substring matched by `\d+\.?\d*`, so the
`ValueError` branch is dead in this model. -/
def _parse_option_ticker (ticker : String) : Option ParsedTicker :=
  match tickerMatch ticker with
  | none => none
  | some g =>
    some { symbol := String.mk g.symbol,
           option_type := if g.type_code = 'C' then "call" else "put",
           strike := strikeHeuristic g.strike_str,
           month_code := String.mk g.month_code,
           original_ticker := String.mk (stripChars (upStr ticker).data) }

/-- C5: whenever a ticker matches one of the three patterns, the returned
strike is the parsed numeric value of the matched strike substring, divided
by 10 exactly when that value exceeds 20,000 and the substring contains no
literal decimal point.  `ABCC3000D` parses to root `ABC`, call, strike 3000,
expiry code `D` (3000 is below the threshold and is returned unchanged); a
strike substring `97539` (value above 20,000, no decimal point) normalizes
to 9753.9. -/
theorem c5_ticker_strike_heuristic :
    (∀ (t : String) (g : TickerGroups), tickerMatch t = some g →
      _parse_option_ticker t =
        some { symbol := String.mk g.symbol,
               option_type := if g.type_code = 'C' then "call" else "put",
               strike := if parseStrike g.strike_str > 20000 ∧
                            ¬ g.strike_str.contains '.'
                         then parseStrike g.strike_str / 10
                         else parseStrike g.strike_str,
               month_code := String.mk g.month_code,
               original_ticker := String.mk (stripChars (upStr t).data) }) ∧
    _parse_option_ticker "ABCC3000D" =
      some { symbol := "ABC", option_type := "call", strike := 3000,
             month_code := "D", original_ticker := "ABCC3000D" } ∧
    _parse_option_ticker "ABCC97539AB" =
      some { symbol := "ABC", option_type := "call", strike := 97539/10,
             month_code := "AB", original_ticker := "ABCC97539AB" } ∧
    parseStrike "97539".data = 97539 ∧
    ("97539".data.contains '.') = false ∧
    (97539 : ℚ) > 20000 := by
  refine ⟨?_, by decide, by decide, by decide, by decide, by decide⟩
  intro t g h
  rw [_parse_option_ticker, h]
  simp only [strikeHeuristic]

/-- C5 witness: the heuristic characterization applied to the concrete
matched ticker `ABCC97539AB`. -/
theorem c5_ticker_strike_heuristic_witness :
    _parse_option_ticker "ABCC97539AB" =
      some { symbol := String.mk ['A', 'B', 'C'],
             option_type := if 'C' = 'C' then "call" else "put",
             strike := if parseStrike ['9', '7', '5', '3', '9'] > 20000 ∧
                          ¬ (['9', '7', '5', '3', '9'] : List Char).contains '.'
                       then parseStrike ['9', '7', '5', '3', '9'] / 10
                       else parseStrike ['9', '7', '5', '3', '9'],
             month_code := String.mk ['A', 'B'],
             original_ticker := String.mk (stripChars (upStr "ABCC97539AB").data) } :=
  c5_ticker_strike_heuristic.1 "ABCC97539AB"
    { symbol := ['A', 'B', 'C'], type_code := 'C',
      strike_str := ['9', '7', '5', '3', '9'], month_code := ['A', 'B'] }
    (by decide)

/-! ## market_data.py : expiry resolver -/

/-- Single-letter month table of `_get_days_to_expiry` (A=Jan … L=Dec). -/
def month_map_single : List (String × ℕ) :=
  [("A", 1), ("B", 2), ("C", 3), ("D", 4), ("E", 5), ("F", 6),
   ("G", 7), ("H", 8), ("I", 9), ("J", 10), ("K", 11), ("L", 12)]

/-- Multi-letter month table of `_get_days_to_expiry`. -/
def month_map_double : List (String × ℕ) :=
  [("EN", 1), ("FE", 2), ("MA", 3), ("AB", 4), ("MY", 5), ("JU", 6),
   ("JL", 7), ("AG", 8), ("SE", 9), ("OC", 10), ("NO", 11), ("DI", 12),
   ("ENE", 1), ("FEB", 2), ("MAR", 3), ("ABR", 4), ("MAY", 5), ("JUN", 6),
   ("JUL", 7), ("AGO", 8), ("SEP", 9), ("OCT", 10), ("NOV", 11), ("DIC", 12),
   ("MR", 3), ("JA", 1), ("FB", 2)]

/-- Association-list lookup (Python `dict.get`; the dict literals above have
distinct keys). -/
def slookup (k : String) : List (String × ℕ) → Option ℕ
  | [] => none
  | (k', v) :: rest => if k' = k then some v else slookup k rest

/-- Lookup `month_map_double.get(mc) or month_map_single.get(mc)` after
upper-casing: the multi-letter table is consulted first (its values 1–12 are
all truthy, so Python's `or` falls through only on `None`). -/
def resolveMonth (month_code : String) : Option ℕ :=
  match slookup (upStr month_code) month_map_double with
  | some m => some m
  | none => slookup (upStr month_code) month_map_single

/-- A Python `datetime` instant: calendar date plus seconds since midnight
(fractional seconds model microseconds). -/
structure DateTime where
  year : ℕ
  month : ℕ
  day : ℕ
  secOfDay : ℚ
deriving DecidableEq, Repr

/-- Gregorian leap year. -/
def isLeap (y : ℕ) : Bool :=
  decide (y % 4 = 0) && (decide (y % 100 ≠ 0) || decide (y % 400 = 0))

/-- Days before the first of month `m` (1–12) within a year. -/
def daysBeforeMonth (leap : Bool) (m : ℕ) : ℕ :=
  (if leap then
    [0, 0, 31, 60, 91, 121, 152, 182, 213, 244, 274, 305, 335]
   else
    [0, 0, 31, 59, 90, 120, 151, 181, 212, 243, 273, 304, 334]).getD m 0

/-- Proleptic-Gregorian ordinal day number of a date (0001-01-01 = 0). -/
def toOrdinal (y m d : ℕ) : ℕ :=
  365 * (y - 1) + (y - 1) / 4 - (y - 1) / 100 + (y - 1) / 400 +
    daysBeforeMonth (isLeap y) m + (d - 1)

/-- Seconds of an instant since the epoch of `toOrdinal`. -/
def totalSeconds (t : DateTime) : ℚ :=
  (toOrdinal t.year t.month t.day : ℚ) * 86400 + t.secOfDay

/-- Python `(b - a).days`: the timedelta's day component, i.e. the floor of
the difference in days. -/
def wholeDaysBetween (a b : DateTime) : ℤ :=
  ⌊(totalSeconds b - totalSeconds a) / 86400⌋

/-- Method `MarketDataService._get_days_to_expiry` (market_data.py): resolve the
month code (multi-letter table first, unknown code ⇒ 30 days), bump the year
when the month lies strictly before the current one, settle at the 15th
17:00, and floor the remaining whole days at 1.  The source's `try/except`
around the `datetime` constructor is dead code — day 15 is valid in every
month — and the `elif month == now.month` branch is an explicit no-op. -/
def _get_days_to_expiry (now : DateTime) (month_code : String) : ℤ :=
  match resolveMonth month_code with
  | none => 30
  | some month =>
    let expiry_year := if month < now.month then now.year + 1 else now.year
    let expiry_date : DateTime :=
      { year := expiry_year, month := month, day := 15, secOfDay := 17 * 3600 }
    max 1 (wholeDaysBetween now expiry_date)

/-- C8: the expiry resolver always returns at least 1: an unrecognized code
yields exactly 30; a recognized code is resolved through the multi-letter
table first with the single-letter table as fallback, the expiry year is the
next calendar year exactly when the resolved month is strictly before the
current month, and the result is `max 1` of the whole days from now to the
mid-month (15th, 17:00) settlement instant. -/
theorem c8_expiry_resolver_floor (now : DateTime) (code : String) :
    1 ≤ _get_days_to_expiry now code ∧
    (resolveMonth code = none → _get_days_to_expiry now code = 30) ∧
    (∀ m, slookup (upStr code) month_map_double = some m →
      resolveMonth code = some m) ∧
    (slookup (upStr code) month_map_double = none →
      resolveMonth code = slookup (upStr code) month_map_single) ∧
    (∀ m, resolveMonth code = some m →
      _get_days_to_expiry now code =
        max 1 (wholeDaysBetween now
          { year := if m < now.month then now.year + 1 else now.year,
            month := m, day := 15, secOfDay := 17 * 3600 })) := by
  refine ⟨?_, ?_, ?_, ?_, ?_⟩
  · rw [_get_days_to_expiry]
    cases resolveMonth code with
    | none => norm_num
    | some m => exact le_max_left 1 _
  · intro h
    rw [_get_days_to_expiry, h]
  · intro m h
    rw [resolveMonth, h]
  · intro h
    rw [resolveMonth, h]
  · intro m h
    rw [_get_days_to_expiry, h]

/-- C8 witness: from a reference instant 2026-10-12 midnight, the code `"D"`
(April, via the single-letter table) resolves into next April's settlement,
185 whole days ahead. -/
theorem c8_expiry_resolver_floor_witness :
    _get_days_to_expiry { year := 2026, month := 10, day := 12, secOfDay := 0 } "D" =
      max 1 (wholeDaysBetween
        { year := 2026, month := 10, day := 12, secOfDay := 0 }
        { year := if 4 < 10 then 2026 + 1 else 2026, month := 4, day := 15,
          secOfDay := 17 * 3600 }) ∧
    _get_days_to_expiry { year := 2026, month := 10, day := 12, secOfDay := 0 } "D" =
      185 := by
  constructor
  · exact (c8_expiry_resolver_floor
      { year := 2026, month := 10, day := 12, secOfDay := 0 } "D").2.2.2.2 4
      (by decide)
  · decide

end Planilla


